import Mathlib

/-!
# GitHub starred-repositories MCP server: a shallow embedding

The Go packages `internal/github`, `internal/resource` and `internal/server`
are embedded as pure Lean functions.

* A Go `string` is an immutable sequence of bytes (`GoString`); `len` is the byte
  length and `s[n:]` drops `n` bytes.
* A Go result `(value, error)` is a pair whose second component is `none` for a
  nil error.  A nil slice and an empty slice are both the empty list.
* The remote API (`Activity.ListStarred` of go-github) and `encoding/json` are
  external: they are parameters of the embedding.  The value `goJSON` is a model of
  `json.MarshalIndent` for the values the program serialises.
* `log.Printf` calls have no effect on results and are left out.
-/

set_option autoImplicit false

namespace McpServer

/-! ## Go strings and errors -/

/-- Go `string`: a sequence of bytes. -/
abbrev GoString := List UInt8

/-- The bytes of a string literal of the source (UTF-8, as Go stores it). -/
def bytes (s : String) : GoString := s.toUTF8.data.toList

/-- Go `error` values built by `fmt.Errorf`: without `%w` a plain error string,
with `%w` an error that keeps the formatted message and the wrapped cause. -/
inductive GoError where
  | errorString (msg : GoString)
  | wrapError (msg : GoString) (err : GoError)
  deriving DecidableEq, Repr

/-- The method `Error()` of an error value: its message. -/
def GoError.Error : GoError → GoString
  | .errorString msg => msg
  | .wrapError msg _ => msg

/-- The method `Unwrap()`: the cause of a wrapping error. -/
def GoError.Unwrap : GoError → Option GoError
  | .errorString _ => none
  | .wrapError _ err => some err

/-- The call `fmt.Errorf(pre + "%w", err)` for a non-nil `err`: the message is `pre`
followed by `err.Error()`, and the result wraps `err`. -/
def errorfW (pre : GoString) (err : GoError) : GoError :=
  .wrapError (pre ++ err.Error) err

/-! ## Package `internal/github` (client.go) -/

/-- StarredRepo represents a starred repository with relevant metadata. -/
structure StarredRepo where
  Name : GoString
  FullName : GoString
  Description : GoString
  URL : GoString
  HTMLURL : GoString
  Language : GoString
  Stars : Int
  Forks : Int
  UpdatedAt : GoString
  Owner : GoString
  deriving DecidableEq, Repr

/-- The go-github `Timestamp`, reduced to what the client uses of it: the text its
`String()` method returns. -/
structure Timestamp where
  rendered : GoString
  deriving DecidableEq, Repr

/-- The method `String()` of a go-github `Timestamp`. -/
def Timestamp.String (t : Timestamp) : GoString := t.rendered

/-- The go-github `User`, with the one field the client reads (`Login *string`). -/
structure User where
  Login : Option GoString
  deriving DecidableEq, Repr

/-- The go-github `Repository`, with the pointer fields the client reads;
a nil pointer is `none`. -/
structure Repository where
  Name : Option GoString
  FullName : Option GoString
  Description : Option GoString
  URL : Option GoString
  HTMLURL : Option GoString
  Language : Option GoString
  StargazersCount : Option Int
  ForksCount : Option Int
  Owner : Option User
  UpdatedAt : Option Timestamp
  deriving DecidableEq, Repr

/-- The go-github `StarredRepository`: one raw item of a page; `Repository` may be nil. -/
structure StarredRepository where
  Repository : Option Repository
  deriving DecidableEq, Repr

/-- The go-github `ListOptions` inside `ActivityListStarredOptions`. -/
structure ListOptions where
  Page : Int
  PerPage : Int
  deriving DecidableEq, Repr

/-- The go-github `Response`, with the one field the client reads. -/
structure Response where
  NextPage : Int
  deriving DecidableEq, Repr

/-- The remote call `c.client.Activity.ListStarred(c.ctx, user, opts)`: for a user
name (empty for the authenticated caller) and list options it fails with an error or
answers one page of raw items with the response header. -/
abbrev ListStarredAPI :=
  GoString → ListOptions → Except GoError (List StarredRepository × Response)

/-- One request made to the remote API, as recorded in the request log. -/
structure Call where
  user : GoString
  opts : ListOptions
  deriving DecidableEq, Repr

/-- Helper `getStringValue`: a nil pointer reads as the empty string. -/
def getStringValue (s : Option GoString) : GoString :=
  match s with
  | none => []
  | some v => v

/-- Helper `getIntValue`: a nil pointer reads as zero. -/
def getIntValue (i : Option Int) : Int :=
  match i with
  | none => 0
  | some v => v

/-- Helper `getOwnerLogin`: empty when the owner or its login is nil. -/
def getOwnerLogin (owner : Option User) : GoString :=
  match owner with
  | none => []
  | some o =>
    match o.Login with
    | none => []
    | some l => l

/-- The record the page loop builds from a non-nil repository payload `r`
(the struct literal, then the conditional assignment of `UpdatedAt`). -/
def toStarredRepo (r : Repository) : StarredRepo :=
  let starredRepo : StarredRepo :=
    { Name := getStringValue r.Name
      FullName := getStringValue r.FullName
      Description := getStringValue r.Description
      URL := getStringValue r.URL
      HTMLURL := getStringValue r.HTMLURL
      Language := getStringValue r.Language
      Stars := getIntValue r.StargazersCount
      Forks := getIntValue r.ForksCount
      UpdatedAt := []
      Owner := getOwnerLogin r.Owner }
  match r.UpdatedAt with
  | some t => { starredRepo with UpdatedAt := t.String }
  | none => starredRepo

/-- The inner loop `for _, repo := range repos` of both fetch functions: items with a
nil repository are skipped (`continue`), every other one is appended to `allRepos`. -/
def appendPage (allRepos : List StarredRepo) (repos : List StarredRepository) :
    List StarredRepo :=
  repos.foldl
    (fun acc repo =>
      match repo.Repository with
      | none => acc
      | some r => acc ++ [toStarredRepo r])
    allRepos

/-- The outer loop `for { ... }` of `GetStarredRepos`, with `fuel` bounding the number of
iterations (`none` when the fuel runs out).  The result is the Go result pair together
with the log of the requests made. -/
def GetStarredReposLoop (api : ListStarredAPI) :
    Nat → ListOptions → List StarredRepo → List Call →
      Option ((List StarredRepo × Option GoError) × List Call)
  | 0, _, _, _ => none
  | fuel + 1, opts, allRepos, calls =>
    match api [] opts with
    | .error err =>
      some (([], some (errorfW (bytes "failed to fetch starred repos: ") err)),
        calls ++ [⟨[], opts⟩])
    | .ok (repos, resp) =>
      if resp.NextPage = 0 then
        some ((appendPage allRepos repos, none), calls ++ [⟨[], opts⟩])
      else
        GetStarredReposLoop api fuel { opts with Page := resp.NextPage }
          (appendPage allRepos repos) (calls ++ [⟨[], opts⟩])

/-- GetStarredRepos fetches all starred repositories for the authenticated user. -/
def GetStarredRepos (api : ListStarredAPI) (fuel : Nat) :
    Option ((List StarredRepo × Option GoError) × List Call) :=
  GetStarredReposLoop api fuel { Page := 0, PerPage := 100 } [] []

/-- The outer loop of `GetStarredReposForUser`, with `fuel` bounding the iterations. -/
def GetStarredReposForUserLoop (api : ListStarredAPI) (username : GoString) :
    Nat → ListOptions → List StarredRepo → List Call →
      Option ((List StarredRepo × Option GoError) × List Call)
  | 0, _, _, _ => none
  | fuel + 1, opts, allRepos, calls =>
    match api username opts with
    | .error err =>
      some (([], some (errorfW
          (bytes "failed to fetch starred repos for user " ++ username ++ bytes ": ") err)),
        calls ++ [⟨username, opts⟩])
    | .ok (repos, resp) =>
      if resp.NextPage = 0 then
        some ((appendPage allRepos repos, none), calls ++ [⟨username, opts⟩])
      else
        GetStarredReposForUserLoop api username fuel { opts with Page := resp.NextPage }
          (appendPage allRepos repos) (calls ++ [⟨username, opts⟩])

/-- GetStarredReposForUser fetches starred repositories for a specific user. -/
def GetStarredReposForUser (api : ListStarredAPI) (username : GoString) (fuel : Nat) :
    Option ((List StarredRepo × Option GoError) × List Call) :=
  GetStarredReposForUserLoop api username fuel { Page := 0, PerPage := 100 } [] []

/-! ## Package `internal/resource` (adapter.go) -/

/-- The values the adapter stores in a contents map (`interface{}`): strings and ints. -/
inductive Value where
  | str (s : GoString)
  | int (n : Int)
  deriving DecidableEq, Repr

/-- MCPResource represents a resource in MCP format.  The Go map `Contents` is kept as
the list of its entries, in the order of the map literal; the keys are distinct. -/
structure MCPResource where
  URI : GoString
  Name : GoString
  Description : GoString
  MimeType : GoString
  Contents : List (GoString × Value)
  deriving DecidableEq, Repr

/-- The map read `m[key]`. -/
def contentsGet (m : List (GoString × Value)) (key : GoString) : Option Value :=
  (m.find? (fun e => e.1 = key)).map (fun e => e.2)

/-- The function `repoToMCPResource` converts a GitHub starred repo to MCP resource
format. -/
def repoToMCPResource (repo : StarredRepo) : MCPResource :=
  let uri := bytes "github://starred/" ++ repo.FullName
  let contents : List (GoString × Value) :=
    [ (bytes "name", .str repo.Name),
      (bytes "full_name", .str repo.FullName),
      (bytes "owner", .str repo.Owner),
      (bytes "description", .str repo.Description),
      (bytes "url", .str repo.URL),
      (bytes "html_url", .str repo.HTMLURL),
      (bytes "language", .str repo.Language),
      (bytes "stars", .int repo.Stars),
      (bytes "forks", .int repo.Forks),
      (bytes "updated_at", .str repo.UpdatedAt) ]
  let description :=
    if repo.Description = [] then bytes "Starred repository: " ++ repo.FullName
    else repo.Description
  { URI := uri
    Name := repo.FullName
    Description := description
    MimeType := bytes "application/json"
    Contents := contents }

/-- ListStarredResources returns starred repositories as MCP resources.  The argument
`fetched` is what the call `a.githubClient.GetStarredRepos()` returned. -/
def ListStarredResources (fetched : List StarredRepo × Option GoError) :
    List MCPResource × Option GoError :=
  match fetched with
  | (_, some err) => ([], some (errorfW (bytes "failed to get starred repos: ") err))
  | (repos, none) =>
    (repos.foldl (fun resources repo => resources ++ [repoToMCPResource repo]) [], none)

/-- The scan `for _, repo := range repos` of `GetStarredResource`, returning at the
first entry whose full name equals `fullName`. -/
def GetStarredResourceScan (fullName : GoString) :
    List StarredRepo → Option MCPResource × Option GoError
  | [] =>
    (none, some (.errorString
      (bytes "repository " ++ fullName ++ bytes " not found in starred repos")))
  | repo :: rest =>
    if repo.FullName = fullName then (some (repoToMCPResource repo), none)
    else GetStarredResourceScan fullName rest

/-- GetStarredResource returns a specific starred repository as an MCP resource.  The
argument `fetched` is what the call `a.githubClient.GetStarredRepos()` returned. -/
def GetStarredResource (fetched : List StarredRepo × Option GoError)
    (fullName : GoString) : Option MCPResource × Option GoError :=
  match fetched with
  | (_, some err) => (none, some (errorfW (bytes "failed to get starred repos: ") err))
  | (repos, none) => GetStarredResourceScan fullName repos

/-- The calls `json.MarshalIndent(v, "", "  ")` of the standard library at the two
types the program serialises: a slice of resources and a pointer to one resource
(`none` for a nil pointer). -/
structure EncodingJSON where
  MarshalIndentResources : List MCPResource → GoString × Option GoError
  MarshalIndentResource : Option MCPResource → GoString × Option GoError

/-- ToJSON converts resources to JSON format. -/
def ToJSON (json : EncodingJSON) (resources : List MCPResource) :
    GoString × Option GoError :=
  match json.MarshalIndentResources resources with
  | (_, some err) => ([], some (errorfW (bytes "failed to marshal resources to JSON: ") err))
  | (data, none) => (data, none)

/-! ## Package `internal/server` (server.go) -/

/-- The request a handler receives, reduced to `request.Params.URI`. -/
structure ReadResourceRequest where
  URI : GoString
  deriving DecidableEq, Repr

/-- The mcp-go `TextResourceContents` value. -/
structure TextResourceContents where
  URI : GoString
  MIMEType : GoString
  Text : GoString
  deriving DecidableEq, Repr

/-- extractFullNameFromURI extracts owner/repo from github://starred/{owner}/{repo}. -/
def extractFullNameFromURI (uri : GoString) : GoString :=
  if uri.length ≤ (bytes "github://starred/").length then []
  else uri.drop (bytes "github://starred/").length

/-- handleListStarred handles requests for all starred repositories. -/
def handleListStarred (json : EncodingJSON) (fetched : List StarredRepo × Option GoError)
    (_request : ReadResourceRequest) : List TextResourceContents × Option GoError :=
  match ListStarredResources fetched with
  | (_, some err) => ([], some (errorfW (bytes "failed to list starred resources: ") err))
  | (resources, none) =>
    match ToJSON json resources with
    | (_, some err) =>
      ([], some (errorfW (bytes "failed to convert resources to JSON: ") err))
    | (jsonData, none) =>
      ([{ URI := bytes "github://starred"
          MIMEType := bytes "application/json"
          Text := jsonData }], none)

/-- handleGetStarredRepo handles requests for a specific starred repository. -/
def handleGetStarredRepo (json : EncodingJSON)
    (fetched : List StarredRepo × Option GoError) (request : ReadResourceRequest) :
    List TextResourceContents × Option GoError :=
  let fullName := extractFullNameFromURI request.URI
  if fullName = [] then
    ([], some (.errorString (bytes "invalid URI format: " ++ request.URI)))
  else
    match GetStarredResource fetched fullName with
    | (_, some err) => ([], some (errorfW (bytes "failed to get starred resource: ") err))
    | (resource, none) =>
      match json.MarshalIndentResource resource with
      | (_, some err) =>
        ([], some (errorfW (bytes "failed to marshal resource to JSON: ") err))
      | (jsonData, none) =>
        ([{ URI := request.URI
            MIMEType := bytes "application/json"
            Text := jsonData }], none)

/-! ### Registration and dispatch

The server keeps what `AddResource` and `AddResourceTemplate` were given and, on a
read request, calls the handler of the static resource whose URI equals the request
URI, and otherwise the handler of a registered template that the URI matches.  The
matching of a template is the one of RFC 6570 simple expansion: a variable stands for
a run of unreserved characters and percent-encoded triplets. -/

/-- The handlers of `server.go`. -/
inductive Handler where
  | handleListStarred
  | handleGetStarredRepo
  deriving DecidableEq, Repr

/-- One piece of a URI template: literal text or a variable in braces. -/
inductive TemplatePart where
  | lit (s : GoString)
  | var (name : GoString)
  deriving DecidableEq, Repr

/-- Scanner behind `parseTemplate`: `inVar` tells whether an opening brace is pending,
`acc` holds the bytes of the piece being read. -/
def parseTemplateAux : GoString → Bool → GoString → List TemplatePart
  | [], _, acc => if acc = [] then [] else [.lit acc]
  | c :: t, false, acc =>
    if c = 123 then -- the byte 123 is the opening brace
      (if acc = [] then [] else [.lit acc]) ++ parseTemplateAux t true []
    else parseTemplateAux t false (acc ++ [c])
  | c :: t, true, acc =>
    if c = 125 then -- the byte 125 is the closing brace
      .var acc :: parseTemplateAux t false []
    else parseTemplateAux t true (acc ++ [c])

/-- The pieces of a URI template such as `github://starred/{owner}/{repo}`. -/
def parseTemplate (raw : GoString) : List TemplatePart :=
  parseTemplateAux raw false []

/-- Unreserved characters of RFC 3986: letters, digits, `-`, `.`, `_`, `~`. -/
def isUnreserved (c : UInt8) : Bool :=
  (65 ≤ c && c ≤ 90) || (97 ≤ c && c ≤ 122) || (48 ≤ c && c ≤ 57) ||
    c = 45 || c = 46 || c = 95 || c = 126

/-- Hexadecimal digits. -/
def isHexDigit (c : UInt8) : Bool :=
  (48 ≤ c && c ≤ 57) || (65 ≤ c && c ≤ 70) || (97 ≤ c && c ≤ 102)

/-- A variable followed by the rest of the template, the rest given as the matcher `k`:
the variable takes a run of unreserved bytes and percent-encoded triplets (possibly
empty) and `k` must accept what is left. -/
def matchVar (k : GoString → Bool) : GoString → Bool
  | [] => k []
  | [c] => k [c] || (isUnreserved c && k [])
  | [c, d] => k [c, d] || (isUnreserved c && matchVar k [d])
  | c :: d :: e :: t =>
    k (c :: d :: e :: t) || (isUnreserved c && matchVar k (d :: e :: t)) ||
      (c = 37 && isHexDigit d && isHexDigit e && matchVar k t)

/-- Whether the whole of a URI matches the pieces of a template. -/
def matchParts : List TemplatePart → GoString → Bool
  | [] => fun s => s.isEmpty
  | .lit l :: ps => fun s => l.isPrefixOf s && matchParts ps (s.drop l.length)
  | .var _ :: ps => matchVar (matchParts ps)

/-- The test `matchesTemplate` of the dispatcher. -/
def matchesTemplate (uri : GoString) (template : GoString) : Bool :=
  matchParts (parseTemplate template) uri

/-- What has been registered with the server: static resources by URI, and templates. -/
structure Registry where
  resources : List (GoString × Handler)
  templates : List (GoString × Handler)
  deriving DecidableEq, Repr

/-- The method `registerResources` sets up all MCP resource endpoints: the static
resource `github://starred` and the template `github://starred/{owner}/{repo}`. -/
def registerResources : Registry :=
  { resources := [(bytes "github://starred", .handleListStarred)]
    templates := [(bytes "github://starred/{owner}/{repo}", .handleGetStarredRepo)] }

/-- The handler the dispatcher selects for a request URI, if any: first the static
resource with exactly this URI, then the first template the URI matches. -/
def selectHandler (reg : Registry) (uri : GoString) : Option Handler :=
  match reg.resources.find? (fun e => e.1 = uri) with
  | some e => some e.2
  | none => (reg.templates.find? (fun e => matchesTemplate uri e.1)).map (fun e => e.2)

/-- Running a handler of `server.go` on a request. -/
def runHandler (h : Handler) (json : EncodingJSON)
    (fetched : List StarredRepo × Option GoError) (request : ReadResourceRequest) :
    List TextResourceContents × Option GoError :=
  match h with
  | .handleListStarred => handleListStarred json fetched request
  | .handleGetStarredRepo => handleGetStarredRepo json fetched request

/-- A read request served by the registered handlers: `none` when no registered
resource or template matches the URI, otherwise the result of the selected handler. -/
def readResource (json : EncodingJSON) (fetched : List StarredRepo × Option GoError)
    (uri : GoString) : Option (List TextResourceContents × Option GoError) :=
  (selectHandler registerResources uri).map (fun h => runHandler h json fetched ⟨uri⟩)

/-! ## Functions the tests call that `server.go` and `adapter.go` do not define -/

/-- Modelled from the spec: the function `extractUsernameFromURI`, called by
`server_test.go` and absent from `server.go`.  It strips the fixed literal prefix
`github://starred/users/` and returns empty if the URI does not start with this exact
prefix or nothing follows it. -/
def extractUsernameFromURI (uri : GoString) : GoString :=
  if (bytes "github://starred/users/").isPrefixOf uri then
    uri.drop (bytes "github://starred/users/").length
  else []

/-- Modelled from the spec: the function `repoToMCPResourceForUser`, called by
`adapter_test.go` and absent from `adapter.go`.  The resource has the user-scoped URI
`github://starred/users/{username}/{fullName}`, the same repository fields as the
global transform plus `starred_by`, and the description fallback
`Repository {fullName} starred by {username}`. -/
def repoToMCPResourceForUser (repo : StarredRepo) (username : GoString) : MCPResource :=
  let uri := bytes "github://starred/users/" ++ username ++ bytes "/" ++ repo.FullName
  let contents : List (GoString × Value) :=
    (repoToMCPResource repo).Contents ++ [(bytes "starred_by", .str username)]
  let description :=
    if repo.Description = [] then
      bytes "Repository " ++ repo.FullName ++ bytes " starred by " ++ username
    else repo.Description
  { URI := uri
    Name := repo.FullName
    Description := description
    MimeType := bytes "application/json"
    Contents := contents }

/-! ## The remote API as a chain of pages -/

/-- Reference for the conversion of one page: the raw items with a repository payload,
converted in the order of the page; the items without payload are left out. -/
def convertedItems (items : List StarredRepository) : List StarredRepo :=
  items.filterMap (fun item => item.Repository.map toStarredRepo)

/-- A finite chain of pages that all succeed: the request for `page` (page size 100, on
behalf of `user`) answers the first entry of the chain, every page but the last names
the page number of the next entry, and the last page reports next page 0.  An entry holds
the page number requested and the raw items answered. -/
inductive PageChain (api : ListStarredAPI) (user : GoString) :
    Int → List (Int × List StarredRepository) → Prop where
  | last (page : Int) (items : List StarredRepository) :
      api user ⟨page, 100⟩ = .ok (items, ⟨0⟩) → PageChain api user page [(page, items)]
  | more (page : Int) (items : List StarredRepository) (next : Int)
      (rest : List (Int × List StarredRepository)) :
      api user ⟨page, 100⟩ = .ok (items, ⟨next⟩) → next ≠ 0 →
      PageChain api user next rest → PageChain api user page ((page, items) :: rest)

/-- A chain of pages that succeed, each naming a next page, followed by a request that
fails with `cause`.  The list holds the pages answered before the failure (it is empty
when the first request fails) and `failed` is the page number of the failing request. -/
inductive FailingChain (api : ListStarredAPI) (user : GoString) (cause : GoError)
    (failed : Int) : Int → List (Int × List StarredRepository) → Prop where
  | fail : api user ⟨failed, 100⟩ = .error cause → FailingChain api user cause failed failed []
  | more (page : Int) (items : List StarredRepository) (next : Int)
      (rest : List (Int × List StarredRepository)) :
      api user ⟨page, 100⟩ = .ok (items, ⟨next⟩) → next ≠ 0 →
      FailingChain api user cause failed next rest →
      FailingChain api user cause failed page ((page, items) :: rest)

/-- The requests of a chain, as they appear in the request log. -/
def chainCalls (user : GoString) (chain : List (Int × List StarredRepository)) : List Call :=
  chain.map (fun p => ⟨user, ⟨p.1, 100⟩⟩)

/-- The converted items of a chain, page after page. -/
def chainRepos (chain : List (Int × List StarredRepository)) : List StarredRepo :=
  (chain.map (fun p => convertedItems p.2)).flatten

/-! ## Sample values used in the witnesses -/

/-- The repository of `TestRepoToMCPResource`. -/
def sampleRepo : StarredRepo :=
  { Name := bytes "test-repo"
    FullName := bytes "owner/test-repo"
    Description := bytes "A test repository"
    URL := bytes "https://api.github.com/repos/owner/test-repo"
    HTMLURL := bytes "https://github.com/owner/test-repo"
    Language := bytes "Go"
    Stars := 42
    Forks := 10
    UpdatedAt := bytes "2024-01-01"
    Owner := bytes "owner" }

/-- The repository of `TestRepoToMCPResource_EmptyDescription`. -/
def sampleRepoNoDescription : StarredRepo :=
  { Name := bytes "test-repo"
    FullName := bytes "owner/test-repo"
    Description := []
    URL := []
    HTMLURL := []
    Language := []
    Stars := 0
    Forks := 0
    UpdatedAt := []
    Owner := [] }

/-- A second repository, with another full name. -/
def reactRepo : StarredRepo :=
  { Name := bytes "react"
    FullName := bytes "facebook/react"
    Description := bytes "The library for web and native user interfaces"
    URL := bytes "https://api.github.com/repos/facebook/react"
    HTMLURL := bytes "https://github.com/facebook/react"
    Language := bytes "JavaScript"
    Stars := 200000
    Forks := 40000
    UpdatedAt := bytes "2024-02-02"
    Owner := bytes "facebook" }

/-- An entry with the full name of `reactRepo` and different data, to tell the first
match from a later one. -/
def reactRepoLater : StarredRepo :=
  { reactRepo with Description := bytes "a later entry", Stars := 7 }

/-- A raw repository payload with some nil fields. -/
def sampleRawRepo : Repository :=
  { Name := some (bytes "react")
    FullName := some (bytes "facebook/react")
    Description := none
    URL := some (bytes "https://api.github.com/repos/facebook/react")
    HTMLURL := some (bytes "https://github.com/facebook/react")
    Language := some (bytes "JavaScript")
    StargazersCount := some 200000
    ForksCount := none
    Owner := some ⟨some (bytes "facebook")⟩
    UpdatedAt := some ⟨bytes "2024-02-02 10:00:00 +0000 UTC"⟩ }

/-- A second raw payload, with a nil owner login and no timestamp. -/
def sampleRawRepoB : Repository :=
  { Name := some (bytes "mcp-go")
    FullName := some (bytes "mark3labs/mcp-go")
    Description := some (bytes "A Go implementation of MCP")
    URL := none
    HTMLURL := none
    Language := some (bytes "Go")
    StargazersCount := some 5
    ForksCount := some 1
    Owner := some ⟨none⟩
    UpdatedAt := none }

/-- A remote API with two pages: page 0 (the first request) holds a payload, an item
without payload and a second payload and names page 2; page 2 holds one payload and is
the last. -/
def sampleAPI : ListStarredAPI := fun _ opts =>
  if opts.Page = 0 then
    .ok ([⟨some sampleRawRepo⟩, ⟨none⟩, ⟨some sampleRawRepoB⟩], ⟨2⟩)
  else if opts.Page = 2 then .ok ([⟨some sampleRawRepoB⟩], ⟨0⟩)
  else .error (.errorString (bytes "404 Not Found"))

/-- A remote API whose first page succeeds with two payloads and names page 2, and whose
request for page 2 fails. -/
def sampleFailingAPI : ListStarredAPI := fun _ opts =>
  if opts.Page = 0 then .ok ([⟨some sampleRawRepo⟩, ⟨some sampleRawRepoB⟩], ⟨2⟩)
  else .error (.errorString (bytes "502 Bad Gateway"))

/-- A stand-in for `encoding/json` in the witnesses.  It renders the empty slice as `[]`
and the nil pointer as `null`, as `json.MarshalIndent` does; the text it gives for other
values (the URIs, in square or angle brackets) only stands for the real serialisation. -/
def standInJSON : EncodingJSON :=
  { MarshalIndentResources := fun resources =>
      (bytes "[" ++ (resources.map (fun r => r.URI)).flatten ++ bytes "]", none)
    MarshalIndentResource := fun resource =>
      match resource with
      | none => (bytes "null", none)
      | some r => (bytes "<" ++ r.URI ++ bytes ">", none) }

/-! ## Package `internal/config` (config.go) -/

/-- The process environment: a map from variable names to values; `none` for a
variable that is not set. -/
abbrev Environ := GoString → Option GoString

/-- The call `os.Getenv(key)`: the value of the variable, empty when it is not set. -/
def Getenv (env : Environ) (key : GoString) : GoString :=
  match env key with
  | none => []
  | some v => v

/-- Config holds the application configuration. -/
structure Config where
  GitHubToken : GoString
  ServerPort : GoString
  ServerHost : GoString
  OAuthClientID : GoString
  OAuthClientSecret : GoString
  deriving DecidableEq, Repr

/-- The helper `getEnvOrDefault`: the value of the variable when it is non-empty, the
default otherwise. -/
def getEnvOrDefault (env : Environ) (key defaultValue : GoString) : GoString :=
  if Getenv env key ≠ [] then Getenv env key else defaultValue

/-- Load reads configuration from environment variables. -/
def Load (env : Environ) : Option Config × Option GoError :=
  let token := Getenv env (bytes "GITHUB_TOKEN")
  if token = [] then
    (none, some (.errorString (bytes "GITHUB_TOKEN environment variable is required")))
  else
    (some
      { GitHubToken := token
        ServerPort := getEnvOrDefault env (bytes "SERVER_PORT") (bytes "8080")
        ServerHost := getEnvOrDefault env (bytes "SERVER_HOST") (bytes "localhost")
        OAuthClientID := Getenv env (bytes "OAUTH_CLIENT_ID")
        OAuthClientSecret := Getenv env (bytes "OAUTH_CLIENT_SECRET") }, none)

/-- The environment of `TestIntegration_Config`: only the token is set. -/
def sampleEnv : Environ := fun key =>
  if key = bytes "GITHUB_TOKEN" then some (bytes "test_token_123") else none

/-- An environment with the token, a port and a host set, and an empty
`OAUTH_CLIENT_ID`. -/
def sampleEnvFull : Environ := fun key =>
  if key = bytes "GITHUB_TOKEN" then some (bytes "ghp_abc")
  else if key = bytes "SERVER_PORT" then some (bytes "9090")
  else if key = bytes "SERVER_HOST" then some (bytes "0.0.0.0")
  else if key = bytes "OAUTH_CLIENT_ID" then some []
  else none

/-- An environment in which the token is set to the empty string. -/
def sampleEnvEmptyToken : Environ := fun key =>
  if key = bytes "GITHUB_TOKEN" then some [] else none

/-! ## The standard library's `encoding/json`, for the values the program serialises

The call `json.MarshalIndent(v, "", "  ")` is modelled for a slice of `MCPResource` and
for a pointer to one.  Strings are written by the string encoder with HTML escaping, as
`json.Marshal` does; integers in decimal; the struct fields in the order of the
declaration under their tag names, `description` left out when empty; the keys of a map
in byte order; two spaces of indentation per level.  None of these values can fail to
marshal.  An empty list stands for an empty non-nil slice or map (`[]`, `{}`): the
slices and maps the adapter builds are never nil. -/

/-- Lower-case hexadecimal digit for a number below 16. -/
def hexDigit (n : UInt8) : UInt8 :=
  if n < 10 then 48 + n else 87 + n

/-- The table `htmlSafeSet`: the ASCII bytes written as they are, that is the bytes
from the space on except the double quote, the backslash, and the characters less-than,
greater-than and ampersand. -/
def htmlSafe (b : UInt8) : Bool :=
  32 ≤ b && b < 128 && b != 34 && b != 92 && b != 60 && b != 62 && b != 38

/-- The escape written for an ASCII byte that is not in `htmlSafeSet`. -/
def escapeASCII (b : UInt8) : GoString :=
  if b = 92 ∨ b = 34 then [92, b]
  else if b = 8 then [92, 98]
  else if b = 12 then [92, 102]
  else if b = 10 then [92, 110]
  else if b = 13 then [92, 114]
  else if b = 9 then [92, 116]
  else [92, 117, 48, 48, hexDigit (b / 16), hexDigit (b % 16)]

/-- Continuation bytes of UTF-8. -/
def isContinuation (b : UInt8) : Bool :=
  128 ≤ b && b ≤ 191

/-- The size `utf8.DecodeRuneInString` reports for input that starts with a byte of 128
or more: 2, 3 or 4 for a well-formed encoding, and 1 (with `RuneError`) for anything
else, a truncated sequence included. -/
def runeSize : GoString → Nat
  | [] => 0
  | b0 :: rest =>
    if b0 < 194 then 1
    else if b0 ≤ 223 then
      match rest with
      | b1 :: _ => if isContinuation b1 then 2 else 1
      | _ => 1
    else if b0 ≤ 239 then
      match rest with
      | b1 :: b2 :: _ =>
        if (if b0 = 224 then 160 else 128) ≤ b1 && b1 ≤ (if b0 = 237 then 159 else 191)
            && isContinuation b2 then 3
        else 1
      | _ => 1
    else if b0 ≤ 244 then
      match rest with
      | b1 :: b2 :: b3 :: _ =>
        if (if b0 = 240 then 144 else 128) ≤ b1 && b1 ≤ (if b0 = 244 then 143 else 191)
            && isContinuation b2 && isContinuation b3 then 4
        else 1
      | _ => 1
    else 1

/-- The loop of the string encoder (`appendString` with `escapeHTML`).  The counter
`copy` is the number of bytes still to be written as they are (the rest of a well-formed
multi-byte character), `skip` the number of bytes still to be dropped (the rest of
U+2028 or U+2029, written as an escape). -/
def escapeLoop : Nat → Nat → GoString → GoString
  | _, _, [] => []
  | copy + 1, skip, b :: rest => b :: escapeLoop copy skip rest
  | 0, skip + 1, _ :: rest => escapeLoop 0 skip rest
  | 0, 0, b :: rest =>
    if b < 128 then
      (if htmlSafe b then [b] else escapeASCII b) ++ escapeLoop 0 0 rest
    else if runeSize (b :: rest) = 1 then
      bytes "\\ufffd" ++ escapeLoop 0 0 rest
    else if b = 226 ∧ rest.take 2 = [128, 168] then
      bytes "\\u2028" ++ escapeLoop 0 2 rest
    else if b = 226 ∧ rest.take 2 = [128, 169] then
      bytes "\\u2029" ++ escapeLoop 0 2 rest
    else b :: escapeLoop (runeSize (b :: rest) - 1) 0 rest

/-- The contents of a JSON string for a Go string, without the quotes. -/
def escapeString (s : GoString) : GoString :=
  escapeLoop 0 0 s

/-- A Go string as a JSON string. -/
def encodeString (s : GoString) : GoString :=
  [34] ++ escapeString s ++ [34]

/-- An integer in decimal (`strconv.AppendInt` with base 10). -/
def encodeInt (n : Int) : GoString :=
  match n with
  | .ofNat m => (Nat.toDigits 10 m).map (fun c => c.toNat.toUInt8)
  | .negSucc m => 45 :: (Nat.toDigits 10 (m + 1)).map (fun c => c.toNat.toUInt8)

/-- A value of a contents map as JSON. -/
def encodeValue : Value → GoString
  | .str s => encodeString s
  | .int n => encodeInt n

/-- The order of `strings.Compare`: byte-wise lexicographic, strictly less. -/
def bytesLt : GoString → GoString → Bool
  | [], [] => false
  | [], _ :: _ => true
  | _ :: _, [] => false
  | a :: as, b :: bs => a < b || (a == b && bytesLt as bs)

/-- Insertion of a map entry into entries sorted by key; an entry whose key is already
there is dropped, a map having one value per key. -/
def insertEntry (e : GoString × Value) : List (GoString × Value) → List (GoString × Value)
  | [] => [e]
  | x :: xs =>
    if e.1 = x.1 then x :: xs
    else if bytesLt e.1 x.1 then e :: x :: xs
    else x :: insertEntry e xs

/-- The entries of a map in the order in which they are written: sorted by key. -/
def sortedEntries (m : List (GoString × Value)) : List (GoString × Value) :=
  m.foldl (fun acc e => insertEntry e acc) []

/-- A line break followed by the indentation of a nesting depth. -/
def newlineIndent (depth : Nat) : GoString :=
  10 :: (List.replicate depth (bytes "  ")).flatten

/-- The members of an array or object, each on a line of its own at the given depth,
separated by commas. -/
def joinMembers (depth : Nat) : List GoString → GoString
  | [] => []
  | [m] => newlineIndent depth ++ m
  | m :: ms => newlineIndent depth ++ m ++ [44] ++ joinMembers depth ms

/-- An array or object with the given members; without members the two delimiters are
written next to each other. -/
def encodeComposite (opening closing : UInt8) (depth : Nat) (members : List GoString) :
    GoString :=
  match members with
  | [] => [opening, closing]
  | _ => [opening] ++ joinMembers (depth + 1) members ++ newlineIndent depth ++ [closing]

/-- A contents map as a JSON object. -/
def encodeContents (depth : Nat) (m : List (GoString × Value)) : GoString :=
  encodeComposite 123 125 depth
    ((sortedEntries m).map (fun e => encodeString e.1 ++ bytes ": " ++ encodeValue e.2))

/-- An `MCPResource` as a JSON object, by its struct tags. -/
def encodeResource (depth : Nat) (r : MCPResource) : GoString :=
  encodeComposite 123 125 depth
    ([bytes "\"uri\": " ++ encodeString r.URI,
      bytes "\"name\": " ++ encodeString r.Name] ++
      (if r.Description = [] then []
        else [bytes "\"description\": " ++ encodeString r.Description]) ++
      [bytes "\"mimeType\": " ++ encodeString r.MimeType,
        bytes "\"contents\": " ++ encodeContents (depth + 1) r.Contents])

/-- A slice of resources as a JSON array. -/
def encodeResources (resources : List MCPResource) : GoString :=
  encodeComposite 91 93 0 (resources.map (encodeResource 1))

/-- The package `encoding/json` as the program uses it. -/
def goJSON : EncodingJSON :=
  { MarshalIndentResources := fun resources => (encodeResources resources, none)
    MarshalIndentResource := fun resource =>
      match resource with
      | none => (bytes "null", none)
      | some r => (encodeResource 0 r, none) }

/-- The resource of `TestToJSON`. -/
def sampleResource : MCPResource :=
  { URI := bytes "github://starred/owner/repo1"
    Name := bytes "owner/repo1"
    Description := bytes "Test repo 1"
    MimeType := bytes "application/json"
    Contents := [(bytes "name", .str (bytes "repo1")), (bytes "stars", .int 10)] }

/-- A resource whose URI holds an ampersand. -/
def sampleResourceAmpersand : MCPResource :=
  { URI := bytes "github://starred/a&b"
    Name := bytes "a&b"
    Description := []
    MimeType := bytes "application/json"
    Contents := [] }

/-! ## Helper lemmas -/

theorem bytes_starred_length : (bytes "github://starred/").length = 17 := by decide

theorem foldl_append_singleton {α β : Type} (f : α → β) (l : List α) (acc : List β) :
    l.foldl (fun resources x => resources ++ [f x]) acc = acc ++ l.map f := by
  induction l generalizing acc with
  | nil => simp
  | cons x xs ih => simp [ih]

theorem GetStarredResourceScan_not_found (fullName : GoString) (L : List StarredRepo)
    (h : ∀ x ∈ L, x.FullName ≠ fullName) :
    GetStarredResourceScan fullName L =
      (none, some (.errorString
        (bytes "repository " ++ fullName ++ bytes " not found in starred repos"))) := by
  induction L with
  | nil => rfl
  | cons x xs ih =>
    have hx : x.FullName ≠ fullName := h x (List.mem_cons_self _ _)
    have hxs : ∀ y ∈ xs, y.FullName ≠ fullName := fun y hy => h y (List.mem_cons_of_mem _ hy)
    simp [GetStarredResourceScan, hx, ih hxs]

theorem GetStarredResourceScan_first (fullName : GoString) (pre : List StarredRepo)
    (r : StarredRepo) (post : List StarredRepo)
    (hpre : ∀ x ∈ pre, x.FullName ≠ fullName) (hr : r.FullName = fullName) :
    GetStarredResourceScan fullName (pre ++ r :: post) = (some (repoToMCPResource r), none) := by
  induction pre with
  | nil => simp [GetStarredResourceScan, hr]
  | cons x xs ih =>
    have hx : x.FullName ≠ fullName := hpre x (List.mem_cons_self _ _)
    have hxs : ∀ y ∈ xs, y.FullName ≠ fullName :=
      fun y hy => hpre y (List.mem_cons_of_mem _ hy)
    simp [GetStarredResourceScan, hx, ih hxs]

theorem exists_first_match (fullName : GoString) (L : List StarredRepo)
    (h : ∃ x ∈ L, x.FullName = fullName) :
    ∃ pre r post, L = pre ++ r :: post ∧ (∀ x ∈ pre, x.FullName ≠ fullName) ∧
      r.FullName = fullName := by
  induction L with
  | nil => simp at h
  | cons y ys ih =>
    by_cases hy : y.FullName = fullName
    · exact ⟨[], y, ys, rfl, by simp, hy⟩
    · have h2 : ∃ x ∈ ys, x.FullName = fullName := by
        obtain ⟨x, hx, hxe⟩ := h
        rcases List.mem_cons.1 hx with rfl | hx2
        · exact absurd hxe hy
        · exact ⟨x, hx2, hxe⟩
      obtain ⟨pre, r, post, hL, hpre, hr⟩ := ih h2
      refine ⟨y :: pre, r, post, by simp [hL], ?_, hr⟩
      intro x hx
      rcases List.mem_cons.1 hx with rfl | hx2
      · exact hy
      · exact hpre x hx2

/-! ## C1: dispatch of `github://starred/users/<username>` -/

/-- C1: with the patterns `registerResources` registers, the read of
`github://starred/users/timduly4` is dispatched to the owner/repo handler
`handleGetStarredRepo`, which looks for the full name `users/timduly4` and, on a starred
list without such an entry (here the empty list), fails with the message
`failed to get starred resource: repository users/timduly4 not found in starred repos`;
no user-scoped handler is reached and no `starred_by` result is produced. -/
theorem users_uri_dispatched_to_owner_repo_handler :
    selectHandler registerResources (bytes "github://starred/users/timduly4")
        = some Handler.handleGetStarredRepo ∧
      extractFullNameFromURI (bytes "github://starred/users/timduly4")
        = bytes "users/timduly4" ∧
      ∀ json : EncodingJSON,
        readResource json ([], none) (bytes "github://starred/users/timduly4") =
          some ([], some (GoError.wrapError
            (bytes ("failed to get starred resource: " ++
              "repository users/timduly4 not found in starred repos"))
            (GoError.errorString
              (bytes "repository users/timduly4 not found in starred repos")))) := by
  refine ⟨by rfl, by rfl, ?_⟩
  intro json
  rfl

/-! ## C2: lookup by full name -/

/-- C2: given the fetched list `L`, if some entry has its full name equal to `fullName`
then `GetStarredResource` returns, without error, the `repoToMCPResource` transform of
the first such entry; if no entry matches it returns no resource and the error
`repository <fullName> not found in starred repos`, whose message contains the
requested full name. -/
theorem GetStarredResource_first_match_or_not_found (L : List StarredRepo)
    (fullName : GoString) :
    ((∃ x ∈ L, x.FullName = fullName) →
      ∃ pre r post, L = pre ++ r :: post ∧ (∀ x ∈ pre, x.FullName ≠ fullName) ∧
        r.FullName = fullName ∧
        GetStarredResource (L, none) fullName = (some (repoToMCPResource r), none)) ∧
    ((∀ x ∈ L, x.FullName ≠ fullName) →
      GetStarredResource (L, none) fullName =
        (none, some (GoError.errorString
          (bytes "repository " ++ fullName ++ bytes " not found in starred repos"))) ∧
      fullName <:+:
        (GoError.errorString
          (bytes "repository " ++ fullName ++ bytes " not found in starred repos")).Error) := by
  constructor
  · intro h
    obtain ⟨pre, r, post, hL, hpre, hr⟩ := exists_first_match fullName L h
    refine ⟨pre, r, post, hL, hpre, hr, ?_⟩
    subst hL
    exact GetStarredResourceScan_first fullName pre r post hpre hr
  · intro h
    refine ⟨GetStarredResourceScan_not_found fullName L h, ?_⟩
    exact ⟨bytes "repository ", bytes " not found in starred repos", rfl⟩

/-- Witness for C2 on concrete lists: of two entries named `facebook/react` the first
is returned, and a name that differs only in letter case is not found. -/
theorem GetStarredResource_first_match_or_not_found_witness :
    (∃ pre r post,
      [sampleRepo, reactRepo, reactRepoLater] = pre ++ r :: post ∧
        (∀ x ∈ pre, x.FullName ≠ bytes "facebook/react") ∧
        r.FullName = bytes "facebook/react" ∧
        GetStarredResource ([sampleRepo, reactRepo, reactRepoLater], none)
          (bytes "facebook/react") = (some (repoToMCPResource r), none)) ∧
    GetStarredResource ([sampleRepo, reactRepo, reactRepoLater], none)
        (bytes "facebook/react") = (some (repoToMCPResource reactRepo), none) ∧
    GetStarredResource ([sampleRepo, reactRepo], none) (bytes "Facebook/React") =
      (none, some (GoError.errorString
        (bytes "repository Facebook/React not found in starred repos"))) :=
  ⟨(GetStarredResource_first_match_or_not_found [sampleRepo, reactRepo, reactRepoLater]
      (bytes "facebook/react")).1 ⟨reactRepo, by simp, by decide⟩,
    by rfl,
    ((GetStarredResource_first_match_or_not_found [sampleRepo, reactRepo]
      (bytes "Facebook/React")).2 (by decide)).1⟩

/-! ## C3 and C4: the URI parsers -/

/-- C3: `extractFullNameFromURI` returns the empty string for every URI of at most 17
bytes, the URI without its first 17 bytes for every longer one, and hence `s` for
every URI made of the prefix `github://starred/` followed by a non-empty `s`. -/
theorem extractFullNameFromURI_strips (uri s : GoString) :
    (bytes "github://starred/").length = 17 ∧
    (uri.length ≤ 17 → extractFullNameFromURI uri = []) ∧
    (17 < uri.length → extractFullNameFromURI uri = uri.drop 17) ∧
    (s ≠ [] → extractFullNameFromURI (bytes "github://starred/" ++ s) = s) := by
  refine ⟨bytes_starred_length, ?_, ?_, ?_⟩
  · intro h
    simp [extractFullNameFromURI, bytes_starred_length, h]
  · intro h
    have h2 : ¬ uri.length ≤ 17 := by omega
    simp [extractFullNameFromURI, bytes_starred_length, h2]
  · intro hs
    have hlen : 0 < s.length := List.length_pos.2 hs
    have h2 : ¬ (bytes "github://starred/" ++ s).length ≤ (bytes "github://starred/").length := by
      rw [List.length_append]; omega
    unfold extractFullNameFromURI
    rw [if_neg h2, List.drop_left]

/-- Witness for C3: the three URIs of the test table, with the empty URI and the bare
prefix. -/
theorem extractFullNameFromURI_strips_witness :
    extractFullNameFromURI (bytes "github://starred/facebook/react") = bytes "facebook/react" ∧
    extractFullNameFromURI (bytes "github://starred/mark3labs/mcp-go")
      = bytes "mark3labs/mcp-go" ∧
    extractFullNameFromURI (bytes "github://starred/users/timduly4") = bytes "users/timduly4" ∧
    extractFullNameFromURI (bytes "") = bytes "" ∧
    extractFullNameFromURI (bytes "github://starred/") = bytes "" ∧
    extractFullNameFromURI (bytes "github://starred/facebook/react")
      = (bytes "github://starred/facebook/react").drop 17 :=
  ⟨(extractFullNameFromURI_strips [] (bytes "facebook/react")).2.2.2 (by decide),
    (extractFullNameFromURI_strips [] (bytes "mark3labs/mcp-go")).2.2.2 (by decide),
    (extractFullNameFromURI_strips [] (bytes "users/timduly4")).2.2.2 (by decide),
    (extractFullNameFromURI_strips (bytes "") []).2.1 (by decide),
    (extractFullNameFromURI_strips (bytes "github://starred/") []).2.1 (by decide),
    (extractFullNameFromURI_strips (bytes "github://starred/facebook/react") []).2.2.1
      (by decide)⟩

/-- C4 (on the function modelled from the spec): `extractUsernameFromURI` returns `u`
for the prefix `github://starred/users/` followed by a non-empty `u`, and the empty
string for every URI that does not start with this prefix and for the bare prefix. -/
theorem extractUsernameFromURI_strips (uri u : GoString) :
    (u ≠ [] → extractUsernameFromURI (bytes "github://starred/users/" ++ u) = u) ∧
    (¬ bytes "github://starred/users/" <+: uri → extractUsernameFromURI uri = []) ∧
    extractUsernameFromURI (bytes "github://starred/users/") = [] := by
  refine ⟨?_, ?_, by rfl⟩
  · intro _
    have h : (bytes "github://starred/users/").isPrefixOf
        (bytes "github://starred/users/" ++ u) = true :=
      List.isPrefixOf_iff_prefix.2 (List.prefix_append _ _)
    unfold extractUsernameFromURI
    rw [if_pos h, List.drop_left]
  · intro h
    have h2 : ¬ (bytes "github://starred/users/").isPrefixOf uri = true :=
      fun hp => h (List.isPrefixOf_iff_prefix.1 hp)
    unfold extractUsernameFromURI
    rw [if_neg h2]

/-- Witness for C4: the URIs of the test table. -/
theorem extractUsernameFromURI_strips_witness :
    extractUsernameFromURI (bytes "github://starred/users/octocat") = bytes "octocat" ∧
    extractUsernameFromURI (bytes "github://starred/users/my-user") = bytes "my-user" ∧
    extractUsernameFromURI (bytes "github://starred/users/user123") = bytes "user123" ∧
    extractUsernameFromURI (bytes "") = bytes "" ∧
    extractUsernameFromURI (bytes "github://starred/timduly4") = bytes "" :=
  ⟨(extractUsernameFromURI_strips [] (bytes "octocat")).1 (by decide),
    (extractUsernameFromURI_strips [] (bytes "my-user")).1 (by decide),
    (extractUsernameFromURI_strips [] (bytes "user123")).1 (by decide),
    (extractUsernameFromURI_strips (bytes "") []).2.1 (by decide),
    (extractUsernameFromURI_strips (bytes "github://starred/timduly4") []).2.1 (by decide)⟩

/-! ## C5, C6 and C7: the transforms and the list operation -/

/-- The ten keys of the contents map of `repoToMCPResource` are distinct. -/
theorem contents_keys_nodup :
    [bytes "name", bytes "full_name", bytes "owner", bytes "description", bytes "url",
      bytes "html_url", bytes "language", bytes "stars", bytes "forks",
      bytes "updated_at"].Nodup := by
  decide

/-- The keys stay distinct when `starred_by` is added. -/
theorem contents_keys_for_user_nodup :
    [bytes "name", bytes "full_name", bytes "owner", bytes "description", bytes "url",
      bytes "html_url", bytes "language", bytes "stars", bytes "forks",
      bytes "updated_at", bytes "starred_by"].Nodup := by
  decide

/-- C5: for every starred repo `r`, `repoToMCPResource r` has the URI
`github://starred/` followed by the full name, the full name as name, the MIME type
`application/json`, a contents map with exactly the ten keys name, full_name, owner,
description, url, html_url, language, stars, forks, updated_at, each holding the field
of `r` unchanged, and as description the description of `r` when that is non-empty and
`Starred repository: ` followed by the full name when it is empty. -/
theorem repoToMCPResource_reference (r : StarredRepo) :
    (repoToMCPResource r).URI = bytes "github://starred/" ++ r.FullName ∧
    (repoToMCPResource r).Name = r.FullName ∧
    (repoToMCPResource r).MimeType = bytes "application/json" ∧
    (repoToMCPResource r).Contents.map Prod.fst =
      [bytes "name", bytes "full_name", bytes "owner", bytes "description", bytes "url",
        bytes "html_url", bytes "language", bytes "stars", bytes "forks",
        bytes "updated_at"] ∧
    ((repoToMCPResource r).Contents.map Prod.fst).Nodup ∧
    contentsGet (repoToMCPResource r).Contents (bytes "name") = some (Value.str r.Name) ∧
    contentsGet (repoToMCPResource r).Contents (bytes "full_name")
      = some (Value.str r.FullName) ∧
    contentsGet (repoToMCPResource r).Contents (bytes "owner") = some (Value.str r.Owner) ∧
    contentsGet (repoToMCPResource r).Contents (bytes "description")
      = some (Value.str r.Description) ∧
    contentsGet (repoToMCPResource r).Contents (bytes "url") = some (Value.str r.URL) ∧
    contentsGet (repoToMCPResource r).Contents (bytes "html_url")
      = some (Value.str r.HTMLURL) ∧
    contentsGet (repoToMCPResource r).Contents (bytes "language")
      = some (Value.str r.Language) ∧
    contentsGet (repoToMCPResource r).Contents (bytes "stars") = some (Value.int r.Stars) ∧
    contentsGet (repoToMCPResource r).Contents (bytes "forks") = some (Value.int r.Forks) ∧
    contentsGet (repoToMCPResource r).Contents (bytes "updated_at")
      = some (Value.str r.UpdatedAt) ∧
    (r.Description ≠ [] → (repoToMCPResource r).Description = r.Description) ∧
    (r.Description = [] →
      (repoToMCPResource r).Description = bytes "Starred repository: " ++ r.FullName) := by
  refine ⟨rfl, rfl, rfl, rfl, contents_keys_nodup, by rfl, by rfl, by rfl, by rfl, by rfl,
    by rfl, by rfl, by rfl, by rfl, by rfl, ?_, ?_⟩
  · intro h
    simp [repoToMCPResource, h]
  · intro h
    simp [repoToMCPResource, h]

/-- Witness for C5: the two repositories of the adapter tests. -/
theorem repoToMCPResource_reference_witness :
    (repoToMCPResource sampleRepo).URI = bytes "github://starred/owner/test-repo" ∧
    (repoToMCPResource sampleRepo).Description = bytes "A test repository" ∧
    (repoToMCPResource sampleRepoNoDescription).Description
      = bytes "Starred repository: owner/test-repo" :=
  ⟨(repoToMCPResource_reference sampleRepo).1,
    (repoToMCPResource_reference sampleRepo).2.2.2.2.2.2.2.2.2.2.2.2.2.2.2.1 (by decide),
    (repoToMCPResource_reference sampleRepoNoDescription).2.2.2.2.2.2.2.2.2.2.2.2.2.2.2.2
      (by decide)⟩

/-- C6 (on the function modelled from the spec): for every starred repo `r` and user
name `u`, `repoToMCPResourceForUser r u` has the URI `github://starred/users/`, `u`,
`/` and the full name, the full name as name, the MIME type `application/json`, the
contents of the global transform followed by `starred_by` holding `u`, and as
description the description of `r` when that is non-empty and
`Repository <full name> starred by <u>` when it is empty. -/
theorem repoToMCPResourceForUser_reference (r : StarredRepo) (u : GoString) :
    (repoToMCPResourceForUser r u).URI
      = bytes "github://starred/users/" ++ u ++ bytes "/" ++ r.FullName ∧
    (repoToMCPResourceForUser r u).Name = r.FullName ∧
    (repoToMCPResourceForUser r u).MimeType = bytes "application/json" ∧
    (repoToMCPResourceForUser r u).Contents
      = (repoToMCPResource r).Contents ++ [(bytes "starred_by", Value.str u)] ∧
    ((repoToMCPResourceForUser r u).Contents.map Prod.fst).Nodup ∧
    contentsGet (repoToMCPResourceForUser r u).Contents (bytes "starred_by")
      = some (Value.str u) ∧
    (∀ key, key ∈ (repoToMCPResource r).Contents.map Prod.fst →
      contentsGet (repoToMCPResourceForUser r u).Contents key
        = contentsGet (repoToMCPResource r).Contents key) ∧
    (r.Description ≠ [] → (repoToMCPResourceForUser r u).Description = r.Description) ∧
    (r.Description = [] →
      (repoToMCPResourceForUser r u).Description
        = bytes "Repository " ++ r.FullName ++ bytes " starred by " ++ u) := by
  refine ⟨rfl, rfl, rfl, rfl, contents_keys_for_user_nodup, by rfl, ?_, ?_, ?_⟩
  · intro key hkey
    have hk : key ∈ [bytes "name", bytes "full_name", bytes "owner", bytes "description",
        bytes "url", bytes "html_url", bytes "language", bytes "stars", bytes "forks",
        bytes "updated_at"] := hkey
    simp only [List.mem_cons, List.mem_singleton, List.not_mem_nil, or_false] at hk
    rcases hk with h | h | h | h | h | h | h | h | h | h <;> subst h <;> rfl
  · intro h
    simp [repoToMCPResourceForUser, h]
  · intro h
    simp [repoToMCPResourceForUser, h]

/-- Witness for C6: the repositories and the user name of the adapter tests. -/
theorem repoToMCPResourceForUser_reference_witness :
    (repoToMCPResourceForUser sampleRepo (bytes "testuser")).URI
      = bytes "github://starred/users/testuser/owner/test-repo" ∧
    (repoToMCPResourceForUser sampleRepo (bytes "testuser")).Description
      = bytes "A test repository" ∧
    (repoToMCPResourceForUser sampleRepoNoDescription (bytes "testuser")).Description
      = bytes "Repository owner/test-repo starred by testuser" ∧
    contentsGet (repoToMCPResourceForUser sampleRepo (bytes "testuser")).Contents
      (bytes "stars") = some (Value.int 42) :=
  ⟨(repoToMCPResourceForUser_reference sampleRepo (bytes "testuser")).1,
    (repoToMCPResourceForUser_reference sampleRepo (bytes "testuser")).2.2.2.2.2.2.2.1
      (by decide),
    (repoToMCPResourceForUser_reference sampleRepoNoDescription
      (bytes "testuser")).2.2.2.2.2.2.2.2 (by decide),
    (repoToMCPResourceForUser_reference sampleRepo (bytes "testuser")).2.2.2.2.2.2.1
      (bytes "stars") (by decide)⟩

/-- C7: when the fetch succeeds with the list `L`, `ListStarredResources` returns,
without error, the list of the `repoToMCPResource` transforms of the entries of `L`, in
the order of `L` and of the same length; the empty list gives the empty list. -/
theorem ListStarredResources_maps (L : List StarredRepo) :
    ListStarredResources (L, none) = (L.map repoToMCPResource, none) ∧
    (ListStarredResources (L, none)).1.length = L.length ∧
    (∀ i (h : i < L.length),
      (ListStarredResources (L, none)).1[i]? = some (repoToMCPResource (L.get ⟨i, h⟩))) ∧
    ListStarredResources ([], none) = ([], none) := by
  have h : ListStarredResources (L, none) = (L.map repoToMCPResource, none) := by
    simp [ListStarredResources, foldl_append_singleton]
  refine ⟨h, by simp [h], ?_, rfl⟩
  intro i hi
  simp [h, List.getElem?_map, List.getElem?_eq_getElem hi]

/-- Witness for C7: a list of two entries. -/
theorem ListStarredResources_maps_witness :
    ListStarredResources ([sampleRepo, reactRepo], none)
      = ([repoToMCPResource sampleRepo, repoToMCPResource reactRepo], none) ∧
    (ListStarredResources ([sampleRepo, reactRepo], none)).1[1]?
      = some (repoToMCPResource reactRepo) :=
  ⟨(ListStarredResources_maps [sampleRepo, reactRepo]).1,
    (ListStarredResources_maps [sampleRepo, reactRepo]).2.2.1 1 (by decide)⟩

/-! ## C8 and C9: the page loop -/

theorem appendPage_eq (allRepos : List StarredRepo) (repos : List StarredRepository) :
    appendPage allRepos repos = allRepos ++ convertedItems repos := by
  unfold appendPage convertedItems
  induction repos generalizing allRepos with
  | nil => simp
  | cons x xs ih =>
    cases hx : x.Repository with
    | none => simp [List.filterMap_cons, hx, ih]
    | some r => simp [List.filterMap_cons, hx, ih]

theorem GetStarredReposLoop_chain (api : ListStarredAPI) (page : Int)
    (chain : List (Int × List StarredRepository)) (h : PageChain api [] page chain) :
    ∀ (fuel : Nat) (allRepos : List StarredRepo) (calls : List Call),
      chain.length ≤ fuel →
      GetStarredReposLoop api fuel ⟨page, 100⟩ allRepos calls =
        some ((allRepos ++ chainRepos chain, none), calls ++ chainCalls [] chain) := by
  induction h with
  | last page items hp =>
    intro fuel allRepos calls hf
    cases fuel with
    | zero => simp at hf
    | succ n => simp [GetStarredReposLoop, hp, appendPage_eq, chainRepos, chainCalls]
  | more page items next rest hp hn _ ih =>
    intro fuel allRepos calls hf
    cases fuel with
    | zero => simp at hf
    | succ n =>
      have hf2 : rest.length ≤ n := by simpa using hf
      simp [GetStarredReposLoop, hp, hn, ih n _ _ hf2, appendPage_eq, chainRepos, chainCalls]

theorem GetStarredReposForUserLoop_chain (api : ListStarredAPI) (username : GoString)
    (page : Int) (chain : List (Int × List StarredRepository))
    (h : PageChain api username page chain) :
    ∀ (fuel : Nat) (allRepos : List StarredRepo) (calls : List Call),
      chain.length ≤ fuel →
      GetStarredReposForUserLoop api username fuel ⟨page, 100⟩ allRepos calls =
        some ((allRepos ++ chainRepos chain, none), calls ++ chainCalls username chain) := by
  induction h with
  | last page items hp =>
    intro fuel allRepos calls hf
    cases fuel with
    | zero => simp at hf
    | succ n => simp [GetStarredReposForUserLoop, hp, appendPage_eq, chainRepos, chainCalls]
  | more page items next rest hp hn _ ih =>
    intro fuel allRepos calls hf
    cases fuel with
    | zero => simp at hf
    | succ n =>
      have hf2 : rest.length ≤ n := by simpa using hf
      simp [GetStarredReposForUserLoop, hp, hn, ih n _ _ hf2, appendPage_eq, chainRepos,
        chainCalls]

theorem GetStarredReposLoop_failing (api : ListStarredAPI) (cause : GoError) (failed page : Int)
    (chain : List (Int × List StarredRepository))
    (h : FailingChain api [] cause failed page chain) :
    ∀ (fuel : Nat) (allRepos : List StarredRepo) (calls : List Call),
      chain.length < fuel →
      GetStarredReposLoop api fuel ⟨page, 100⟩ allRepos calls =
        some (([], some (errorfW (bytes "failed to fetch starred repos: ") cause)),
          calls ++ chainCalls [] chain ++ [⟨[], ⟨failed, 100⟩⟩]) := by
  induction h with
  | fail hp =>
    intro fuel allRepos calls hf
    cases fuel with
    | zero => simp at hf
    | succ n => simp [GetStarredReposLoop, hp, chainCalls]
  | more page items next rest hp hn _ ih =>
    intro fuel allRepos calls hf
    cases fuel with
    | zero => simp at hf
    | succ n =>
      have hf2 : rest.length < n := by simpa using hf
      simp [GetStarredReposLoop, hp, hn, ih n _ _ hf2, chainCalls]

theorem GetStarredReposForUserLoop_failing (api : ListStarredAPI) (username : GoString)
    (cause : GoError) (failed page : Int) (chain : List (Int × List StarredRepository))
    (h : FailingChain api username cause failed page chain) :
    ∀ (fuel : Nat) (allRepos : List StarredRepo) (calls : List Call),
      chain.length < fuel →
      GetStarredReposForUserLoop api username fuel ⟨page, 100⟩ allRepos calls =
        some (([], some (errorfW
            (bytes "failed to fetch starred repos for user " ++ username ++ bytes ": ")
            cause)),
          calls ++ chainCalls username chain ++ [⟨username, ⟨failed, 100⟩⟩]) := by
  induction h with
  | fail hp =>
    intro fuel allRepos calls hf
    cases fuel with
    | zero => simp at hf
    | succ n => simp [GetStarredReposForUserLoop, hp, chainCalls]
  | more page items next rest hp hn _ ih =>
    intro fuel allRepos calls hf
    cases fuel with
    | zero => simp at hf
    | succ n =>
      have hf2 : rest.length < n := by simpa using hf
      simp [GetStarredReposForUserLoop, hp, hn, ih n _ _ hf2, chainCalls]

theorem PageChain_deterministic (api : ListStarredAPI) (user : GoString) (page : Int)
    (c1 : List (Int × List StarredRepository)) (h1 : PageChain api user page c1) :
    ∀ c2, PageChain api user page c2 → c1 = c2 := by
  induction h1 with
  | last page items hp =>
    intro c2 h2
    cases h2 with
    | last _ items2 hp2 =>
      rw [hp] at hp2
      injection hp2 with hp2
      injection hp2 with h3 _
      rw [h3]
    | more _ items2 next2 rest2 hp2 hn2 _ =>
      rw [hp] at hp2
      injection hp2 with hp2
      injection hp2 with _ h4
      injection h4 with h4
      exact absurd h4.symm hn2
  | more page items next rest hp hn _ ih =>
    intro c2 h2
    cases h2 with
    | last _ items2 hp2 =>
      rw [hp] at hp2
      injection hp2 with hp2
      injection hp2 with _ h4
      injection h4 with h4
      exact absurd h4 hn
    | more _ items2 next2 rest2 hp2 hn2 hr2 =>
      rw [hp] at hp2
      injection hp2 with hp2
      injection hp2 with h3 h4
      injection h4 with h4
      subst h3
      subst h4
      rw [ih rest2 hr2]

theorem PageChain_restart (api : ListStarredAPI) (user : GoString) (page : Int)
    (chain : List (Int × List StarredRepository)) (h : PageChain api user page chain) :
    ∀ q, q ∈ chain.map Prod.fst →
      ∃ c, PageChain api user q c ∧ c.length ≤ chain.length := by
  induction h with
  | last page items hp =>
    intro q hq
    have hq2 : q = page := by simpa using hq
    subst hq2
    exact ⟨_, PageChain.last q items hp, le_refl _⟩
  | more page items next rest hp hn hr ih =>
    intro q hq
    have hq2 : q = page ∨ q ∈ rest.map Prod.fst := by simpa using hq
    rcases hq2 with h1 | h1
    · subst h1
      exact ⟨_, PageChain.more q items next rest hp hn hr, le_refl _⟩
    · obtain ⟨c, hc, hlen⟩ := ih q h1
      exact ⟨c, hc, by simp; omega⟩

theorem PageChain_pages_nodup (api : ListStarredAPI) (user : GoString) (page : Int)
    (chain : List (Int × List StarredRepository)) (h : PageChain api user page chain) :
    (chain.map Prod.fst).Nodup := by
  induction h with
  | last page items hp => simp
  | more page items next rest hp hn hr ih =>
    rw [List.map_cons, List.nodup_cons]
    refine ⟨?_, ih⟩
    intro hmem
    obtain ⟨c, hc, hlen⟩ := PageChain_restart api user next rest hr page hmem
    have heq := PageChain_deterministic api user page _
      (PageChain.more page items next rest hp hn hr) c hc
    rw [← heq] at hlen
    simp at hlen

theorem chainCalls_nodup (user : GoString) (chain : List (Int × List StarredRepository))
    (h : (chain.map Prod.fst).Nodup) : (chainCalls user chain).Nodup := by
  have hmap : chainCalls user chain
      = (chain.map Prod.fst).map (fun n => (⟨user, ⟨n, 100⟩⟩ : Call)) := by
    simp [chainCalls, List.map_map, Function.comp_def]
  rw [hmap]
  refine List.Nodup.map ?_ h
  intro a b hab
  injection hab with _ h2
  injection h2

theorem global_and_user_messages_differ (username x y : GoString) :
    bytes "failed to fetch starred repos: " ++ x ≠
      bytes "failed to fetch starred repos for user " ++ username ++ bytes ": " ++ y := by
  intro h
  have h1 : (bytes "failed to fetch starred repos: " ++ x)[29]? = some 58 := by
    rw [List.getElem?_append_left (by decide)]
    rfl
  have h2 : (bytes "failed to fetch starred repos for user " ++ username ++ bytes ": " ++ y)[29]?
      = some 32 := by
    rw [List.append_assoc, List.append_assoc, List.getElem?_append_left (by decide)]
    rfl
  rw [h, h2] at h1
  exact absurd h1 (by decide)

/-- C8: when the remote API answers a finite chain of pages that all succeed, each page
naming the next and the last reporting next page 0, both `GetStarredRepos` and
`GetStarredReposForUser` return (given fuel for as many iterations as the chain has
pages) without error the converted items of the pages, concatenated in page order, each
page in the order of the API and without the raw items that have no repository payload;
the request log lists exactly the pages of the chain, one request each, in order, all
with page size 100, the first for page 0 and none after the last page, and no request
occurs twice. -/
theorem fetch_accumulates_pages (api : ListStarredAPI) (username : GoString)
    (chain : List (Int × List StarredRepository)) (fuel : Nat) :
    (PageChain api [] 0 chain → chain.length ≤ fuel →
      GetStarredRepos api fuel =
        some (((chain.map (fun p =>
            p.2.filterMap (fun item => item.Repository.map toStarredRepo))).flatten, none),
          chain.map (fun p => ⟨[], ⟨p.1, 100⟩⟩)) ∧
      (chain.map (fun p => (⟨[], ⟨p.1, 100⟩⟩ : Call))).Nodup) ∧
    (PageChain api username 0 chain → chain.length ≤ fuel →
      GetStarredReposForUser api username fuel =
        some (((chain.map (fun p =>
            p.2.filterMap (fun item => item.Repository.map toStarredRepo))).flatten, none),
          chain.map (fun p => ⟨username, ⟨p.1, 100⟩⟩)) ∧
      (chain.map (fun p => (⟨username, ⟨p.1, 100⟩⟩ : Call))).Nodup) := by
  constructor
  · intro h hf
    refine ⟨?_, chainCalls_nodup [] chain (PageChain_pages_nodup api [] 0 chain h)⟩
    have := GetStarredReposLoop_chain api 0 chain h fuel [] [] hf
    simpa [GetStarredRepos, chainRepos, chainCalls, convertedItems] using this
  · intro h hf
    refine ⟨?_, chainCalls_nodup username chain (PageChain_pages_nodup api username 0 chain h)⟩
    have := GetStarredReposForUserLoop_chain api username 0 chain h fuel [] [] hf
    simpa [GetStarredReposForUser, chainRepos, chainCalls, convertedItems] using this

/-- Witness for C8: the two-page API, whose first page has an item without payload. -/
theorem fetch_accumulates_pages_witness :
    GetStarredRepos sampleAPI 2 =
      some (([toStarredRepo sampleRawRepo, toStarredRepo sampleRawRepoB,
          toStarredRepo sampleRawRepoB], none),
        [⟨[], ⟨0, 100⟩⟩, ⟨[], ⟨2, 100⟩⟩]) ∧
    GetStarredReposForUser sampleAPI (bytes "octocat") 5 =
      some (([toStarredRepo sampleRawRepo, toStarredRepo sampleRawRepoB,
          toStarredRepo sampleRawRepoB], none),
        [⟨bytes "octocat", ⟨0, 100⟩⟩, ⟨bytes "octocat", ⟨2, 100⟩⟩]) :=
  ⟨((fetch_accumulates_pages sampleAPI []
      [(0, [⟨some sampleRawRepo⟩, ⟨none⟩, ⟨some sampleRawRepoB⟩]),
        (2, [⟨some sampleRawRepoB⟩])] 2).1
      (PageChain.more 0 _ 2 _ rfl (by decide) (PageChain.last 2 _ rfl)) (by decide)).1,
    ((fetch_accumulates_pages sampleAPI (bytes "octocat")
      [(0, [⟨some sampleRawRepo⟩, ⟨none⟩, ⟨some sampleRawRepoB⟩]),
        (2, [⟨some sampleRawRepoB⟩])] 5).2
      (PageChain.more 0 _ 2 _ rfl (by decide) (PageChain.last 2 _ rfl)) (by decide)).1⟩

/-- C9: when, after a (possibly empty) run of pages that succeed, the request for a page
fails with `cause`, both `GetStarredRepos` and `GetStarredReposForUser` return the nil
slice, whatever was accumulated, together with an error that wraps `cause`: its message
is `failed to fetch starred repos: ` (global) or
`failed to fetch starred repos for user <username>: ` (user-scoped) followed by the
message of `cause`.  The user-scoped message contains the user name, the global message
is a function of the cause alone, and no global message equals a user-scoped one. -/
theorem fetch_error_discards_partial_results (api : ListStarredAPI) (username : GoString)
    (cause : GoError) (failed : Int) (chain : List (Int × List StarredRepository))
    (fuel : Nat) :
    (FailingChain api [] cause failed 0 chain → chain.length < fuel →
      GetStarredRepos api fuel =
        some (([], some (GoError.wrapError
            (bytes "failed to fetch starred repos: " ++ cause.Error) cause)),
          chain.map (fun p => ⟨[], ⟨p.1, 100⟩⟩) ++ [⟨[], ⟨failed, 100⟩⟩])) ∧
    (FailingChain api username cause failed 0 chain → chain.length < fuel →
      GetStarredReposForUser api username fuel =
        some (([], some (GoError.wrapError
            (bytes "failed to fetch starred repos for user " ++ username ++ bytes ": " ++
              cause.Error) cause)),
          chain.map (fun p => ⟨username, ⟨p.1, 100⟩⟩) ++ [⟨username, ⟨failed, 100⟩⟩])) ∧
    (GoError.wrapError (bytes "failed to fetch starred repos: " ++ cause.Error) cause).Unwrap
      = some cause ∧
    (GoError.wrapError
      (bytes "failed to fetch starred repos for user " ++ username ++ bytes ": " ++
        cause.Error) cause).Unwrap = some cause ∧
    username <:+:
      (GoError.wrapError
        (bytes "failed to fetch starred repos for user " ++ username ++ bytes ": " ++
          cause.Error) cause).Error ∧
    (∀ other : GoError,
      (GoError.wrapError (bytes "failed to fetch starred repos: " ++ cause.Error) cause).Error ≠
        (GoError.wrapError
          (bytes "failed to fetch starred repos for user " ++ username ++ bytes ": " ++
            other.Error) other).Error) := by
  refine ⟨?_, ?_, rfl, rfl, ?_, ?_⟩
  · intro h hf
    have := GetStarredReposLoop_failing api cause failed 0 chain h fuel [] [] hf
    simpa [GetStarredRepos, chainCalls, errorfW] using this
  · intro h hf
    have := GetStarredReposForUserLoop_failing api username cause failed 0 chain h fuel [] [] hf
    simpa [GetStarredReposForUser, chainCalls, errorfW] using this
  · exact ⟨bytes "failed to fetch starred repos for user ", bytes ": " ++ cause.Error,
      by simp [GoError.Error]⟩
  · intro other
    exact global_and_user_messages_differ username cause.Error other.Error

/-- Witness for C9: the API whose first page holds two payloads and whose second request
fails; and an API that fails at once. -/
theorem fetch_error_discards_partial_results_witness :
    GetStarredRepos sampleFailingAPI 2 =
      some (([], some (GoError.wrapError
          (bytes "failed to fetch starred repos: 502 Bad Gateway")
          (GoError.errorString (bytes "502 Bad Gateway")))),
        [⟨[], ⟨0, 100⟩⟩, ⟨[], ⟨2, 100⟩⟩]) ∧
    GetStarredReposForUser sampleFailingAPI (bytes "octocat") 2 =
      some (([], some (GoError.wrapError
          (bytes "failed to fetch starred repos for user octocat: 502 Bad Gateway")
          (GoError.errorString (bytes "502 Bad Gateway")))),
        [⟨bytes "octocat", ⟨0, 100⟩⟩, ⟨bytes "octocat", ⟨2, 100⟩⟩]) ∧
    GetStarredRepos (fun _ _ => Except.error (GoError.errorString (bytes "401"))) 1 =
      some (([], some (GoError.wrapError (bytes "failed to fetch starred repos: 401")
          (GoError.errorString (bytes "401")))),
        [⟨[], ⟨0, 100⟩⟩]) :=
  ⟨(fetch_error_discards_partial_results sampleFailingAPI []
      (GoError.errorString (bytes "502 Bad Gateway")) 2
      [(0, [⟨some sampleRawRepo⟩, ⟨some sampleRawRepoB⟩])] 2).1
      (FailingChain.more 0 _ 2 _ rfl (by decide) (FailingChain.fail rfl)) (by decide),
    (fetch_error_discards_partial_results sampleFailingAPI (bytes "octocat")
      (GoError.errorString (bytes "502 Bad Gateway")) 2
      [(0, [⟨some sampleRawRepo⟩, ⟨some sampleRawRepoB⟩])] 2).2.1
      (FailingChain.more 0 _ 2 _ rfl (by decide) (FailingChain.fail rfl)) (by decide),
    (fetch_error_discards_partial_results
      (fun _ _ => Except.error (GoError.errorString (bytes "401"))) []
      (GoError.errorString (bytes "401")) 0 [] 1).1
      (FailingChain.fail rfl) (by decide)⟩

/-! ## C10: the content item a handler returns -/

theorem GetStarredResourceScan_success (fullName : GoString) (L : List StarredRepo)
    (r : Option MCPResource) (h : GetStarredResourceScan fullName L = (r, none)) :
    ∃ x, r = some x := by
  induction L with
  | nil => simp [GetStarredResourceScan] at h
  | cons y ys ih =>
    by_cases hy : y.FullName = fullName
    · simp [GetStarredResourceScan, hy] at h
      exact ⟨_, h.symm⟩
    · simp [GetStarredResourceScan, hy] at h
      exact ih h

theorem GetStarredResource_success (fetched : List StarredRepo × Option GoError)
    (fullName : GoString) (r : Option MCPResource)
    (h : GetStarredResource fetched fullName = (r, none)) : ∃ x, r = some x := by
  obtain ⟨repos, err⟩ := fetched
  cases err with
  | some e => simp [GetStarredResource] at h
  | none => exact GetStarredResourceScan_success fullName repos r h

theorem handleGetStarredRepo_success (json : EncodingJSON)
    (fetched : List StarredRepo × Option GoError) (request : ReadResourceRequest)
    (h : (handleGetStarredRepo json fetched request).2 = none) :
    ∃ resource text,
      GetStarredResource fetched (extractFullNameFromURI request.URI) = (some resource, none) ∧
      json.MarshalIndentResource (some resource) = (text, none) ∧
      (handleGetStarredRepo json fetched request).1 =
        [⟨request.URI, bytes "application/json", text⟩] := by
  unfold handleGetStarredRepo at h ⊢
  by_cases hn : extractFullNameFromURI request.URI = []
  · simp [hn] at h
  · simp only [hn, if_false] at h ⊢
    rcases hg : GetStarredResource fetched (extractFullNameFromURI request.URI) with ⟨r, e⟩
    cases e with
    | some e => simp [hg] at h
    | none =>
      obtain ⟨x, hx⟩ := GetStarredResource_success fetched _ r hg
      subst hx
      rcases hm : json.MarshalIndentResource (some x) with ⟨text, e2⟩
      cases e2 with
      | some e2 => simp [hg, hm] at h
      | none => exact ⟨x, text, rfl, hm, by simp [hm]⟩

theorem handleListStarred_success (json : EncodingJSON)
    (fetched : List StarredRepo × Option GoError) (request : ReadResourceRequest)
    (h : (handleListStarred json fetched request).2 = none) :
    ∃ resources text,
      ListStarredResources fetched = (resources, none) ∧
      json.MarshalIndentResources resources = (text, none) ∧
      ToJSON json resources = (text, none) ∧
      (handleListStarred json fetched request).1 =
        [⟨bytes "github://starred", bytes "application/json", text⟩] := by
  unfold handleListStarred at h ⊢
  rcases hl : ListStarredResources fetched with ⟨resources, e⟩
  cases e with
  | some e => simp [hl] at h
  | none =>
    rcases hm : json.MarshalIndentResources resources with ⟨text, e2⟩
    cases e2 with
    | some e2 => simp [hl, ToJSON, hm] at h
    | none => exact ⟨resources, text, rfl, hm, by simp [ToJSON, hm], by simp [ToJSON, hm]⟩

theorem selectHandler_list_uri (uri : GoString)
    (h : selectHandler registerResources uri = some Handler.handleListStarred) :
    uri = bytes "github://starred" := by
  by_cases hu : bytes "github://starred" = uri
  · exact hu.symm
  · exfalso
    simp only [selectHandler, registerResources, List.find?, hu, decide_False] at h
    split at h <;> simp at h

/-- C10: for every read request that the server dispatches to a handler
(`handleListStarred` or `handleGetStarredRepo`) and on which that handler succeeds, the
handler returns exactly one text content item whose URI equals the URI of the request,
whose MIME type is `application/json`, and whose text is the JSON serialisation of the
adapter's result: of the list `ListStarredResources` returned for `handleListStarred`,
of the resource `GetStarredResource` returned for `handleGetStarredRepo`.  For
`handleGetStarredRepo` the same holds on every request on which it succeeds, and a
successful read through `readResource` yields exactly one such item. -/
theorem served_read_returns_single_json_item (json : EncodingJSON)
    (fetched : List StarredRepo × Option GoError) (request : ReadResourceRequest)
    (h : Handler) (contents : List TextResourceContents) :
    (selectHandler registerResources request.URI = some h →
      (runHandler h json fetched request).2 = none →
      ∃ text,
        (runHandler h json fetched request).1 =
          [⟨request.URI, bytes "application/json", text⟩] ∧
        (h = Handler.handleListStarred →
          ∃ resources,
            ListStarredResources fetched = (resources, none) ∧
            ToJSON json resources = (text, none) ∧
            json.MarshalIndentResources resources = (text, none)) ∧
        (h = Handler.handleGetStarredRepo →
          ∃ resource,
            GetStarredResource fetched (extractFullNameFromURI request.URI)
              = (some resource, none) ∧
            json.MarshalIndentResource (some resource) = (text, none))) ∧
    ((handleGetStarredRepo json fetched request).2 = none →
      ∃ resource text,
        GetStarredResource fetched (extractFullNameFromURI request.URI)
          = (some resource, none) ∧
        json.MarshalIndentResource (some resource) = (text, none) ∧
        (handleGetStarredRepo json fetched request).1 =
          [⟨request.URI, bytes "application/json", text⟩]) ∧
    (readResource json fetched request.URI = some (contents, none) →
      ∃ text, contents = [⟨request.URI, bytes "application/json", text⟩]) := by
  have hserved : ∀ hd : Handler, selectHandler registerResources request.URI = some hd →
      (runHandler hd json fetched request).2 = none →
      ∃ text,
        (runHandler hd json fetched request).1 =
          [⟨request.URI, bytes "application/json", text⟩] ∧
        (hd = Handler.handleListStarred →
          ∃ resources,
            ListStarredResources fetched = (resources, none) ∧
            ToJSON json resources = (text, none) ∧
            json.MarshalIndentResources resources = (text, none)) ∧
        (hd = Handler.handleGetStarredRepo →
          ∃ resource,
            GetStarredResource fetched (extractFullNameFromURI request.URI)
              = (some resource, none) ∧
            json.MarshalIndentResource (some resource) = (text, none)) := by
    intro hd hsel hok
    cases hd with
    | handleListStarred =>
      have hu := selectHandler_list_uri request.URI hsel
      obtain ⟨resources, text, h1, h2, h3, h4⟩ :=
        handleListStarred_success json fetched request hok
      refine ⟨text, ?_, ?_, ?_⟩
      · show (handleListStarred json fetched request).1 = _
        rw [h4, hu]
      · intro _
        exact ⟨resources, h1, h3, h2⟩
      · intro hh
        cases hh
    | handleGetStarredRepo =>
      obtain ⟨resource, text, h1, h2, h3⟩ :=
        handleGetStarredRepo_success json fetched request hok
      refine ⟨text, h3, ?_, ?_⟩
      · intro hh
        cases hh
      · intro _
        exact ⟨resource, h1, h2⟩
  refine ⟨hserved h, handleGetStarredRepo_success json fetched request, ?_⟩
  intro hr
  unfold readResource at hr
  cases hs : selectHandler registerResources request.URI with
  | none => simp [hs] at hr
  | some hd =>
    rw [hs] at hr
    simp only [Option.map_some', Option.some.injEq] at hr
    have hok : (runHandler hd json fetched request).2 = none := congrArg Prod.snd hr
    obtain ⟨text, ht, _⟩ := hserved hd hs hok
    have hc : (runHandler hd json fetched request).1 = contents := congrArg Prod.fst hr
    exact ⟨text, by rw [← hc, ht]⟩

/-- Witness for C10: the read of the list and the read of one starred repository, each
dispatched by the registered patterns and serialised by the model of `encoding/json`. -/
theorem served_read_returns_single_json_item_witness :
    (∃ text,
      (runHandler Handler.handleListStarred goJSON ([sampleRepo, reactRepo], none)
          ⟨bytes "github://starred"⟩).1 =
        [⟨bytes "github://starred", bytes "application/json", text⟩] ∧
      (Handler.handleListStarred = Handler.handleListStarred →
        ∃ resources,
          ListStarredResources ([sampleRepo, reactRepo], none) = (resources, none) ∧
          ToJSON goJSON resources = (text, none) ∧
          goJSON.MarshalIndentResources resources = (text, none)) ∧
      (Handler.handleListStarred = Handler.handleGetStarredRepo →
        ∃ resource,
          GetStarredResource ([sampleRepo, reactRepo], none)
              (extractFullNameFromURI (bytes "github://starred"))
            = (some resource, none) ∧
          goJSON.MarshalIndentResource (some resource) = (text, none))) ∧
    (∃ text,
      (runHandler Handler.handleGetStarredRepo goJSON ([sampleRepo, reactRepo], none)
          ⟨bytes "github://starred/facebook/react"⟩).1 =
        [⟨bytes "github://starred/facebook/react", bytes "application/json", text⟩] ∧
      (Handler.handleGetStarredRepo = Handler.handleListStarred →
        ∃ resources,
          ListStarredResources ([sampleRepo, reactRepo], none) = (resources, none) ∧
          ToJSON goJSON resources = (text, none) ∧
          goJSON.MarshalIndentResources resources = (text, none)) ∧
      (Handler.handleGetStarredRepo = Handler.handleGetStarredRepo →
        ∃ resource,
          GetStarredResource ([sampleRepo, reactRepo], none)
              (extractFullNameFromURI (bytes "github://starred/facebook/react"))
            = (some resource, none) ∧
          goJSON.MarshalIndentResource (some resource) = (text, none))) ∧
    (∃ text,
      [({ URI := bytes "github://starred/facebook/react", MIMEType := bytes "application/json",
          Text := bytes "<github://starred/facebook/react>" } : TextResourceContents)] =
        [⟨bytes "github://starred/facebook/react", bytes "application/json", text⟩]) :=
  ⟨(served_read_returns_single_json_item goJSON ([sampleRepo, reactRepo], none)
      ⟨bytes "github://starred"⟩ Handler.handleListStarred []).1 (by rfl) (by rfl),
    (served_read_returns_single_json_item goJSON ([sampleRepo, reactRepo], none)
      ⟨bytes "github://starred/facebook/react"⟩ Handler.handleGetStarredRepo []).1
      (by rfl) (by rfl),
    (served_read_returns_single_json_item standInJSON ([sampleRepo, reactRepo], none)
      ⟨bytes "github://starred/facebook/react"⟩ Handler.handleGetStarredRepo
      [⟨bytes "github://starred/facebook/react", bytes "application/json",
        bytes "<github://starred/facebook/react>"⟩]).2.2 (by rfl)⟩

/-! ## C12: loading the configuration -/

/-- C12: with the environment as a map from names to values, `Load` fails exactly when
`GITHUB_TOKEN` is unset or empty, and then returns no configuration; otherwise it
succeeds with a configuration whose token is the value of `GITHUB_TOKEN`, whose port is
`SERVER_PORT` when that is non-empty and `8080` otherwise, and whose host is
`SERVER_HOST` when that is non-empty and `localhost` otherwise. -/
theorem Load_requires_token_and_defaults (env : Environ) :
    ((Load env).2 ≠ none ↔
      (env (bytes "GITHUB_TOKEN") = none ∨ env (bytes "GITHUB_TOKEN") = some [])) ∧
    ((Load env).2 ≠ none → (Load env).1 = none) ∧
    ((Load env).2 = none →
      ∃ cfg, Load env = (some cfg, none) ∧
        cfg.GitHubToken = Getenv env (bytes "GITHUB_TOKEN") ∧
        (Getenv env (bytes "SERVER_PORT") ≠ [] →
          cfg.ServerPort = Getenv env (bytes "SERVER_PORT")) ∧
        (Getenv env (bytes "SERVER_PORT") = [] → cfg.ServerPort = bytes "8080") ∧
        (Getenv env (bytes "SERVER_HOST") ≠ [] →
          cfg.ServerHost = Getenv env (bytes "SERVER_HOST")) ∧
        (Getenv env (bytes "SERVER_HOST") = [] → cfg.ServerHost = bytes "localhost")) := by
  have htok : Getenv env (bytes "GITHUB_TOKEN") = [] ↔
      (env (bytes "GITHUB_TOKEN") = none ∨ env (bytes "GITHUB_TOKEN") = some []) := by
    unfold Getenv
    cases env (bytes "GITHUB_TOKEN") with
    | none => simp
    | some v => simp
  by_cases ht : Getenv env (bytes "GITHUB_TOKEN") = []
  · have hL : Load env =
        (none, some (GoError.errorString
          (bytes "GITHUB_TOKEN environment variable is required"))) := by
      simp [Load, ht]
    refine ⟨?_, ?_, ?_⟩
    · rw [hL]
      simpa using htok.1 ht
    · intro _
      rw [hL]
    · intro h
      rw [hL] at h
      simp at h
  · have hL : Load env =
        (some
          { GitHubToken := Getenv env (bytes "GITHUB_TOKEN")
            ServerPort := getEnvOrDefault env (bytes "SERVER_PORT") (bytes "8080")
            ServerHost := getEnvOrDefault env (bytes "SERVER_HOST") (bytes "localhost")
            OAuthClientID := Getenv env (bytes "OAUTH_CLIENT_ID")
            OAuthClientSecret := Getenv env (bytes "OAUTH_CLIENT_SECRET") }, none) := by
      simp [Load, ht]
    refine ⟨?_, ?_, ?_⟩
    · rw [hL]
      constructor
      · intro h
        simp at h
      · intro h
        exact absurd (htok.2 h) ht
    · intro h
      rw [hL] at h
      simp at h
    · intro _
      refine ⟨_, hL, rfl, ?_, ?_, ?_, ?_⟩
      · intro h
        simp [getEnvOrDefault, h]
      · intro h
        simp [getEnvOrDefault, h]
      · intro h
        simp [getEnvOrDefault, h]
      · intro h
        simp [getEnvOrDefault, h]

/-- Witness for C12: the environment of the integration test (defaults apply), an
environment that sets port and host, and one whose token is the empty string. -/
theorem Load_requires_token_and_defaults_witness :
    (∃ cfg, Load sampleEnv = (some cfg, none) ∧
      cfg.GitHubToken = Getenv sampleEnv (bytes "GITHUB_TOKEN") ∧
      (Getenv sampleEnv (bytes "SERVER_PORT") ≠ [] →
        cfg.ServerPort = Getenv sampleEnv (bytes "SERVER_PORT")) ∧
      (Getenv sampleEnv (bytes "SERVER_PORT") = [] → cfg.ServerPort = bytes "8080") ∧
      (Getenv sampleEnv (bytes "SERVER_HOST") ≠ [] →
        cfg.ServerHost = Getenv sampleEnv (bytes "SERVER_HOST")) ∧
      (Getenv sampleEnv (bytes "SERVER_HOST") = [] → cfg.ServerHost = bytes "localhost")) ∧
    Load sampleEnv =
      (some ⟨bytes "test_token_123", bytes "8080", bytes "localhost", [], []⟩, none) ∧
    Load sampleEnvFull =
      (some ⟨bytes "ghp_abc", bytes "9090", bytes "0.0.0.0", [], []⟩, none) ∧
    (Load sampleEnvEmptyToken).2 ≠ none ∧
    (Load sampleEnvEmptyToken).1 = none :=
  ⟨(Load_requires_token_and_defaults sampleEnv).2.2 (by rfl),
    by rfl,
    by rfl,
    (Load_requires_token_and_defaults sampleEnvEmptyToken).1.2 (Or.inr (by rfl)),
    (Load_requires_token_and_defaults sampleEnvEmptyToken).2.1
      ((Load_requires_token_and_defaults sampleEnvEmptyToken).1.2 (Or.inr (by rfl)))⟩

/-! ## C13: null-coalescing of optional upstream fields -/

/-- C13: `getStringValue` returns the value behind a non-nil pointer (the empty string
included) and the empty string for nil; `getIntValue` returns the value behind a non-nil
pointer (zero included) and 0 for nil; `getOwnerLogin` returns the login when owner and
login are both non-nil and the empty string when either is nil; a payload whose
fields are all nil is converted to the record of zero values. -/
theorem null_coalescing (s : GoString) (n : Int) :
    getStringValue (some s) = s ∧
    getStringValue (some []) = [] ∧
    getStringValue none = [] ∧
    getIntValue (some n) = n ∧
    getIntValue (some 0) = 0 ∧
    getIntValue none = 0 ∧
    getOwnerLogin (some ⟨some s⟩) = s ∧
    getOwnerLogin (some ⟨none⟩) = [] ∧
    getOwnerLogin none = [] ∧
    getStringValue (some (bytes "test")) = bytes "test" ∧
    getIntValue (some 42) = 42 ∧
    toStarredRepo ⟨none, none, none, none, none, none, none, none, none, none⟩
      = ⟨[], [], [], [], [], [], 0, 0, [], []⟩ :=
  ⟨rfl, rfl, rfl, rfl, rfl, rfl, rfl, rfl, rfl, rfl, rfl, rfl⟩

/-! ## C14: the URI of a resource parses back to the full name -/

/-- C14: for every starred repo `r`, one with an empty full name included, the URI that
`repoToMCPResource` issues is parsed by `extractFullNameFromURI` back to the full name of
`r`.  Hence, for an entry `r` of a fetched list `L`, looking up the parsed URI in `L`
succeeds and returns the transform of the first entry of `L` with the full name of `r`,
which is the transform of `r` itself when the full names of `L` are distinct. -/
theorem uri_round_trip (r : StarredRepo) (L : List StarredRepo) :
    extractFullNameFromURI (repoToMCPResource r).URI = r.FullName ∧
    (r.FullName = [] → extractFullNameFromURI (repoToMCPResource r).URI = []) ∧
    (r ∈ L →
      ∃ pre first post, L = pre ++ first :: post ∧
        (∀ x ∈ pre, x.FullName ≠ r.FullName) ∧ first.FullName = r.FullName ∧
        GetStarredResource (L, none) (extractFullNameFromURI (repoToMCPResource r).URI)
          = (some (repoToMCPResource first), none)) ∧
    (r ∈ L → (L.map (fun x => x.FullName)).Nodup →
      GetStarredResource (L, none) (extractFullNameFromURI (repoToMCPResource r).URI)
        = (some (repoToMCPResource r), none)) := by
  have hrt : extractFullNameFromURI (repoToMCPResource r).URI = r.FullName := by
    show extractFullNameFromURI (bytes "github://starred/" ++ r.FullName) = r.FullName
    unfold extractFullNameFromURI
    by_cases hn : r.FullName = []
    · rw [hn]
      rfl
    · have hlen : 0 < r.FullName.length := List.length_pos.2 hn
      have h2 : ¬ (bytes "github://starred/" ++ r.FullName).length
          ≤ (bytes "github://starred/").length := by
        rw [List.length_append]
        omega
      rw [if_neg h2, List.drop_left]
  have hfirst : r ∈ L →
      ∃ pre first post, L = pre ++ first :: post ∧
        (∀ x ∈ pre, x.FullName ≠ r.FullName) ∧ first.FullName = r.FullName ∧
        GetStarredResource (L, none) (extractFullNameFromURI (repoToMCPResource r).URI)
          = (some (repoToMCPResource first), none) := by
    intro hr
    obtain ⟨pre, first, post, hL, hpre, hf⟩ := exists_first_match r.FullName L ⟨r, hr, rfl⟩
    refine ⟨pre, first, post, hL, hpre, hf, ?_⟩
    rw [hrt, hL]
    exact GetStarredResourceScan_first r.FullName pre first post hpre hf
  refine ⟨hrt, fun h => by rw [hrt, h], hfirst, ?_⟩
  intro hr hnd
  obtain ⟨pre, first, post, hL, _, hf, hget⟩ := hfirst hr
  have hmem : first ∈ L := by
    rw [hL]
    simp
  have heq : first = r := List.inj_on_of_nodup_map hnd hmem hr hf
  rw [hget, heq]

/-- Witness for C14: an entry of a list with distinct full names, a later entry that
shares its full name with an earlier one, and a record with an empty full name. -/
theorem uri_round_trip_witness :
    GetStarredResource ([sampleRepo, reactRepo], none)
        (extractFullNameFromURI (repoToMCPResource reactRepo).URI)
      = (some (repoToMCPResource reactRepo), none) ∧
    (∃ pre first post, [sampleRepo, reactRepo, reactRepoLater] = pre ++ first :: post ∧
      (∀ x ∈ pre, x.FullName ≠ reactRepoLater.FullName) ∧
      first.FullName = reactRepoLater.FullName ∧
      GetStarredResource ([sampleRepo, reactRepo, reactRepoLater], none)
          (extractFullNameFromURI (repoToMCPResource reactRepoLater).URI)
        = (some (repoToMCPResource first), none)) ∧
    extractFullNameFromURI
        (repoToMCPResource { sampleRepoNoDescription with FullName := [] }).URI = [] :=
  ⟨(uri_round_trip reactRepo [sampleRepo, reactRepo]).2.2.2 (by simp) (by decide),
    (uri_round_trip reactRepoLater [sampleRepo, reactRepo, reactRepoLater]).2.2.1 (by simp),
    (uri_round_trip { sampleRepoNoDescription with FullName := [] } []).2.1 rfl⟩

/-! ## C11: the JSON text of a list of resources -/

set_option maxRecDepth 20000

theorem htmlSafe_lt (b : UInt8) (h : htmlSafe b = true) : b < 128 := by
  simp only [htmlSafe, Bool.and_eq_true, decide_eq_true_eq] at h
  exact h.1.1.1.1.1.2

theorem escapeString_of_htmlSafe (s : GoString) (h : ∀ b ∈ s, htmlSafe b = true) :
    escapeString s = s := by
  unfold escapeString
  induction s with
  | nil => rfl
  | cons b rest ih =>
    have hb : htmlSafe b = true := h b (List.mem_cons_self _ _)
    have hrest : ∀ c ∈ rest, htmlSafe c = true :=
      fun c hc => h c (List.mem_cons_of_mem _ hc)
    simp [escapeLoop, htmlSafe_lt b hb, hb, ih hrest]

theorem infix_joinMembers (depth : Nat) (ms : List GoString) (m : GoString) (h : m ∈ ms) :
    m <:+: joinMembers depth ms := by
  induction ms with
  | nil => simp at h
  | cons x xs ih =>
    cases xs with
    | nil =>
      have hm : m = x := by simpa using h
      subst hm
      exact ⟨newlineIndent depth, [], by simp [joinMembers]⟩
    | cons y ys =>
      rcases List.mem_cons.1 h with hm | hm
      · subst hm
        exact ⟨newlineIndent depth, [44] ++ joinMembers depth (y :: ys),
          by simp [joinMembers]⟩
      · obtain ⟨s, t, hst⟩ := ih hm
        exact ⟨newlineIndent depth ++ x ++ [44] ++ s, t, by simp [joinMembers, ← hst]⟩

theorem infix_encodeComposite (opening closing : UInt8) (depth : Nat) (ms : List GoString)
    (m : GoString) (h : m ∈ ms) : m <:+: encodeComposite opening closing depth ms := by
  obtain ⟨s, t, hst⟩ := infix_joinMembers (depth + 1) ms m h
  cases ms with
  | nil => simp at h
  | cons x xs =>
    exact ⟨[opening] ++ s, t ++ newlineIndent depth ++ [closing],
      by simp [encodeComposite, ← hst]⟩

theorem escaped_uri_infix_encodeResource (depth : Nat) (r : MCPResource) :
    escapeString r.URI <:+: encodeResource depth r := by
  have h1 : escapeString r.URI <:+: bytes "\"uri\": " ++ encodeString r.URI :=
    ⟨bytes "\"uri\": " ++ [34], [34], by simp [encodeString]⟩
  have h2 : bytes "\"uri\": " ++ encodeString r.URI <:+: encodeResource depth r := by
    unfold encodeResource
    exact infix_encodeComposite 123 125 depth _ _ (by simp)
  exact List.IsInfix.trans h1 h2

theorem escaped_uri_infix_encodeResources (rs : List MCPResource) (r : MCPResource)
    (h : r ∈ rs) : escapeString r.URI <:+: encodeResources rs := by
  have h1 : encodeResource 1 r <:+: encodeResources rs := by
    unfold encodeResources
    exact infix_encodeComposite 91 93 0 _ _ (List.mem_map_of_mem _ h)
  exact List.IsInfix.trans (escaped_uri_infix_encodeResource 1 r) h1

theorem encodeComposite_ne_nil (opening closing : UInt8) (depth : Nat) (ms : List GoString) :
    encodeComposite opening closing depth ms ≠ [] := by
  cases ms <;> simp [encodeComposite]

/-- C11, counterexample to the claim as stated: for the one-element sequence holding a
resource with the URI `github://starred/a&b`, `ToJSON` succeeds and writes the
ampersand as a six-character unicode escape; the text holds no ampersand at all, so the
URI is not a substring of it. -/
theorem ToJSON_escapes_ampersand_in_uri :
    ToJSON goJSON [sampleResourceAmpersand] =
      (bytes ("[\n  \x7b\n    \"uri\": \"github://starred/a\\u0026b\",\n" ++
        "    \"name\": \"a\\u0026b\",\n" ++
        "    \"mimeType\": \"application/json\",\n    \"contents\": \x7b\x7d\n  \x7d\n]"),
        none) ∧
    sampleResourceAmpersand.URI = bytes "github://starred/a&b" ∧
    ¬ (sampleResourceAmpersand.URI <:+: (ToJSON goJSON [sampleResourceAmpersand]).1) := by
  refine ⟨by rfl, by rfl, ?_⟩
  intro h
  have h1 : (38 : UInt8) ∈ sampleResourceAmpersand.URI := by decide
  have h2 : (38 : UInt8) ∈ (ToJSON goJSON [sampleResourceAmpersand]).1 := h.subset h1
  have h3 : (38 : UInt8) ∉ (ToJSON goJSON [sampleResourceAmpersand]).1 := by decide
  exact h3 h2

/-- C11 as amended: for every non-empty sequence of resources `ToJSON` succeeds and
produces non-empty bytes that contain, for each resource of the sequence, its URI as the
JSON string encoder writes it; these are the bytes of the URI itself, so that the URI
is a literal substring, whenever the encoder leaves the URI unchanged, which is the
case for every URI made of ASCII bytes from the space on other than the double quote,
the backslash, less-than, greater-than and the ampersand. -/
theorem ToJSON_contains_encoded_uris (resources : List MCPResource) (r : MCPResource) :
    (resources ≠ [] →
      (ToJSON goJSON resources).2 = none ∧ (ToJSON goJSON resources).1 ≠ []) ∧
    (r ∈ resources → escapeString r.URI <:+: (ToJSON goJSON resources).1) ∧
    (r ∈ resources → escapeString r.URI = r.URI → r.URI <:+: (ToJSON goJSON resources).1) ∧
    (r ∈ resources → (∀ b ∈ r.URI, htmlSafe b = true) →
      r.URI <:+: (ToJSON goJSON resources).1) := by
  have hT : ToJSON goJSON resources = (encodeResources resources, none) := rfl
  have hin : r ∈ resources → escapeString r.URI <:+: (ToJSON goJSON resources).1 := by
    intro h
    rw [hT]
    exact escaped_uri_infix_encodeResources resources r h
  refine ⟨?_, hin, ?_, ?_⟩
  · intro _
    rw [hT]
    exact ⟨rfl, encodeComposite_ne_nil 91 93 0 _⟩
  · intro h he
    rw [← he]
    exact hin h
  · intro h hs
    have he := escapeString_of_htmlSafe r.URI hs
    rw [← he]
    exact hin h

/-- Witness for C11 as amended: the resource of `TestToJSON`, alone and after a
resource whose URI needs an escape. -/
theorem ToJSON_contains_encoded_uris_witness :
    ((ToJSON goJSON [sampleResource]).2 = none ∧ (ToJSON goJSON [sampleResource]).1 ≠ []) ∧
    bytes "github://starred/owner/repo1" <:+: (ToJSON goJSON [sampleResource]).1 ∧
    sampleResource.URI <:+: (ToJSON goJSON [sampleResourceAmpersand, sampleResource]).1 ∧
    escapeString sampleResourceAmpersand.URI
      <:+: (ToJSON goJSON [sampleResourceAmpersand, sampleResource]).1 ∧
    ToJSON goJSON [sampleResource] =
      (bytes ("[\n  \x7b\n    \"uri\": \"github://starred/owner/repo1\",\n" ++
        "    \"name\": \"owner/repo1\",\n    \"description\": \"Test repo 1\",\n" ++
        "    \"mimeType\": \"application/json\",\n    \"contents\": \x7b\n" ++
        "      \"name\": \"repo1\",\n      \"stars\": 10\n    \x7d\n  \x7d\n]"), none) :=
  ⟨(ToJSON_contains_encoded_uris [sampleResource] sampleResource).1 (by simp),
    (ToJSON_contains_encoded_uris [sampleResource] sampleResource).2.2.2 (by simp)
      (by decide),
    (ToJSON_contains_encoded_uris [sampleResourceAmpersand, sampleResource]
      sampleResource).2.2.1 (by simp) (by rfl),
    (ToJSON_contains_encoded_uris [sampleResourceAmpersand, sampleResource]
      sampleResourceAmpersand).2.1 (by simp),
    by rfl⟩

end McpServer
